import Mathlib

/-!
Shallow embedding of the ScholarRank pipeline (normalizer, deduplicator,
eligibility matcher, fit scorer) and proofs about it.

Modelling conventions:
* Text is a list of characters (`Str`).  Python string methods
  (lower / strip / substring test / startswith / endswith) are re-implemented
  on `Str`; only ASCII case mapping is relevant to the data handled here.
* Python floats are modelled exactly: `Rat` for data-level arithmetic
  (match percentages, currency, similarity ratios) and `Real` for the
  transcendental fit-score curves (exp / log).
* Python dict records are modelled as structures with `Option` fields; a
  key that is absent and a key that is present with value `None` are
  collapsed (no code path treats them differently).
* Mutable state (the deduplicator's union-find array) is passed explicitly.
-/

namespace ScholarRank

/-- Text as a list of characters. -/
abbrev Str := List Char

/-- Python `str.lower()` (ASCII case mapping). -/
def lowerStr (s : Str) : Str := s.map Char.toLower

/-- Characters matched by Python's regex class `\s` / stripped by `str.strip()`. -/
def pySpace (c : Char) : Bool :=
  c = ' ' || c = '\t' || c = '\n' || c = '\x0d' || c = '\x0b' || c = '\x0c'

/-- Python `str.strip()`. -/
def pyStrip (s : Str) : Str :=
  ((s.dropWhile pySpace).reverse.dropWhile pySpace).reverse

/-- Python substring test `needle in hay` (contiguous; empty needle matches). -/
def isSubstr (needle : Str) : Str → Bool
  | [] => needle.isEmpty
  | c :: t => needle.isPrefixOf (c :: t) || isSubstr needle t

/-- Python `", ".join(l)` and friends. -/
def joinSep (sep : Str) : List Str → Str
  | [] => []
  | [x] => x
  | x :: y :: t => x ++ sep ++ joinSep sep (y :: t)

/-- Truthiness of an optional string (Python: `None` and `""` are falsy). -/
def optStrTruthy : Option Str → Bool
  | none => false
  | some s => !s.isEmpty

/-- Truthiness of an optional integer (Python: `None` and `0` are falsy). -/
def optIntTruthy : Option ℤ → Bool
  | none => false
  | some x => decide (x ≠ 0)

/-- Truthiness of an optional dict modelled by its field count. -/
def optNatTruthy : Option ℕ → Bool
  | none => false
  | some n => decide (n ≠ 0)

/-- Decimal digit character for a value below ten. -/
def digitChar (k : ℕ) : Char := Char.ofNat (48 + k % 10)

/-- Decimal rendering of a natural number (fuel-based recursion). -/
def natToStrAux : ℕ → ℕ → Str
  | 0, _ => []
  | f + 1, n => if n < 10 then [digitChar n] else natToStrAux f (n / 10) ++ [digitChar (n % 10)]

/-- Decimal rendering of a natural number. -/
def natToStr (n : ℕ) : Str := natToStrAux (n + 1) n

/-- Decimal rendering of an integer. -/
def intToStr (i : ℤ) : Str :=
  if i < 0 then '-' :: natToStr i.natAbs else natToStr i.natAbs

/-- Rendering of a rational number, used where Python interpolates a float
into an f-string (the exact text differs from Python float formatting; no
claim depends on it). -/
def ratToStr (q : ℚ) : Str :=
  if q.den = 1 then intToStr q.num
  else intToStr q.num ++ "/".toList ++ natToStr q.den

/-! ### Profile data model (src/profile/models.py, fields used by the matcher) -/

/-- Citizenship/residency status options (enum `CitizenshipStatus`). -/
inductive CitizenshipStatus where
  | usCitizen
  | permanentResident
  | international
  | daca
  | refugee
  | other
deriving DecidableEq

/-- String value of the `CitizenshipStatus` enum member. -/
def CitizenshipStatus.val : CitizenshipStatus → Str
  | .usCitizen => "us_citizen".toList
  | .permanentResident => "permanent_resident".toList
  | .international => "international".toList
  | .daca => "daca".toList
  | .refugee => "refugee".toList
  | .other => "other".toList

/-- Academic degree level (enum `DegreeLevel`). -/
inductive DegreeLevel where
  | highSchool
  | undergraduate
  | graduate
  | doctoral
  | professional
deriving DecidableEq

/-- String value of the `DegreeLevel` enum member. -/
def DegreeLevel.val : DegreeLevel → Str
  | .highSchool => "high_school".toList
  | .undergraduate => "undergraduate".toList
  | .graduate => "graduate".toList
  | .doctoral => "doctoral".toList
  | .professional => "professional".toList

/-- Year in school (enum `YearInSchool`). -/
inductive YearInSchool where
  | freshman
  | sophomore
  | junior
  | senior
  | fifthYear
  | graduate1
  | graduate2
  | graduate3Plus
deriving DecidableEq

/-- String value of the `YearInSchool` enum member. -/
def YearInSchool.val : YearInSchool → Str
  | .freshman => "freshman".toList
  | .sophomore => "sophomore".toList
  | .junior => "junior".toList
  | .senior => "senior".toList
  | .fifthYear => "fifth_year".toList
  | .graduate1 => "graduate_1".toList
  | .graduate2 => "graduate_2".toList
  | .graduate3Plus => "graduate_3_plus".toList

/-- Gender options (enum `Gender`). -/
inductive Gender where
  | male
  | female
  | nonBinary
  | other
  | preferNotToSay
deriving DecidableEq

/-- String value of the `Gender` enum member. -/
def Gender.val : Gender → Str
  | .male => "male".toList
  | .female => "female".toList
  | .nonBinary => "non_binary".toList
  | .other => "other".toList
  | .preferNotToSay => "prefer_not_to_say".toList

/-- Academic section of the user profile (fields read by the matcher). -/
structure AcademicInfo where
  gpa : Option ℚ := none
  major : Option Str := none
  degreeLevel : Option DegreeLevel := none
  yearInSchool : Option YearInSchool := none
deriving DecidableEq

/-- Location section of the user profile (fields read by the matcher). -/
structure LocationInfo where
  state : Option Str := none
  citizenshipStatus : Option CitizenshipStatus := none
deriving DecidableEq

/-- Demographic section of the user profile (fields read by the matcher). -/
structure DemographicInfo where
  gender : Option Gender := none
  ethnicity : List Str := []
  firstGeneration : Option Bool := none
  veteran : Option Bool := none
  lgbtq : Option Bool := none
deriving DecidableEq

/-- Financial section of the user profile (fields read by the matcher). -/
structure FinancialInfo where
  financialNeed : Option Bool := none
deriving DecidableEq

/-- Affiliations section of the user profile (fields read by the matcher). -/
structure AffiliationsInfo where
  militaryAffiliation : Option Str := none
deriving DecidableEq

/-- User profile (sections read by the matcher). -/
structure UserProfile where
  academic : AcademicInfo := {}
  location : LocationInfo := {}
  demographics : DemographicInfo := {}
  financial : FinancialInfo := {}
  affiliations : AffiliationsInfo := {}
deriving DecidableEq

/-! ### Eligibility matcher (src/matching/matcher.py) -/

/-- Status of a requirement match (enum `MatchStatus`).  The Python value
`"partial"` is named `partMatched` here and `"n/a"` is named `na`. -/
inductive MatchStatus where
  | matched
  | partMatched
  | unmatched
  | unknown
  | na
deriving DecidableEq

/-- Result of matching a single requirement (`RequirementMatch`).  Label
strings reproduce the Python f-strings except that numeric interpolation
uses Lean's rational printing; no claim depends on label text. -/
structure RequirementMatch where
  requirement : Str
  status : MatchStatus
  userValue : Option Str := none
  requiredValue : Option Str := none
  isHard : Bool := true
deriving DecidableEq

/-- Result of matching a scholarship against a profile (`MatchResult`). -/
structure MatchResult where
  scholarshipId : Str
  eligible : Bool
  matchCount : ℕ := 0
  totalRequirements : ℕ := 0
  partCount : ℕ := 0
  matchPercentage : ℚ := 0
  details : List RequirementMatch := []
deriving DecidableEq

instance : Inhabited MatchResult := ⟨{ scholarshipId := [], eligible := false }⟩

/-- Structured eligibility requirements, the `parsed_eligibility` dict as
read by the matcher's `.get` calls. -/
structure Elig where
  minGpa : Option ℚ := none
  citizenship : List Str := []
  majors : List Str := []
  degreeLevels : List Str := []
  yearInSchool : List Str := []
  demographics : List Str := []
  states : List Str := []
  financialNeed : Option Bool := none
  militaryAffiliation : Option Bool := none
deriving DecidableEq

/-- Mapping of citizenship status to accepted values (`CITIZENSHIP_MAP`);
the `.get(..., [user_citizenship.value])` fallback applies to `other`. -/
def citizenshipUserValues : CitizenshipStatus → List Str
  | .usCitizen =>
      ["US Citizen".toList, "US Citizens".toList, "American".toList, "Citizen".toList]
  | .permanentResident =>
      ["Permanent Resident".toList, "Green Card".toList, "LPR".toList]
  | .international =>
      ["International".toList, "International Student".toList, "Foreign".toList]
  | .daca => ["DACA".toList, "Dreamer".toList]
  | .refugee => ["Refugee".toList, "Asylee".toList]
  | .other => [CitizenshipStatus.other.val]

/-- Check GPA requirement (`EligibilityMatcher._check_gpa`). -/
def checkGpa (p : UserProfile) (e : Elig) : Option RequirementMatch :=
  match e.minGpa with
  | none => none
  | some minGpa =>
    let req := "GPA >= ".toList ++ ratToStr minGpa
    match p.academic.gpa with
    | none =>
        some { requirement := req, status := .unknown,
               userValue := some "Not specified".toList,
               requiredValue := some (ratToStr minGpa), isHard := true }
    | some userGpa =>
        if userGpa ≥ minGpa then
          some { requirement := req, status := .matched,
                 userValue := some (ratToStr userGpa),
                 requiredValue := some (ratToStr minGpa), isHard := true }
        else
          some { requirement := req, status := .unmatched,
                 userValue := some (ratToStr userGpa),
                 requiredValue := some (ratToStr minGpa), isHard := true }

/-- Check citizenship requirement (`EligibilityMatcher._check_citizenship`). -/
def checkCitizenship (p : UserProfile) (e : Elig) : Option RequirementMatch :=
  if e.citizenship.isEmpty then none
  else
    let reqJoined := joinSep ", ".toList e.citizenship
    let req := "Citizenship: ".toList ++ reqJoined
    match p.location.citizenshipStatus with
    | none =>
        some { requirement := req, status := .unknown,
               userValue := some "Not specified".toList,
               requiredValue := some reqJoined, isHard := true }
    | some uc =>
        let userValues := citizenshipUserValues uc
        let matched := e.citizenship.any fun r =>
          let reqLower := lowerStr r
          userValues.any fun uv =>
            isSubstr (lowerStr uv) reqLower || isSubstr reqLower (lowerStr uv)
        let matched :=
          if matched then true
          else if uc = .international then
            e.citizenship.any fun r => isSubstr "international".toList (lowerStr r)
          else false
        some { requirement := req,
               status := if matched then .matched else .unmatched,
               userValue := some uc.val,
               requiredValue := some reqJoined, isHard := true }

/-- Related-field table (`EligibilityMatcher._is_related_field`). -/
def isRelatedField (userField requiredField : Str) : Bool :=
  let stemFields := ["computer", "engineering", "math", "science", "physics",
    "chemistry", "biology", "data"].map String.toList
  let businessFields := ["business", "finance", "accounting", "economics",
    "marketing"].map String.toList
  let artsFields := ["art", "music", "theater", "film", "design",
    "creative"].map String.toList
  if (["stem", "science", "technology", "engineering", "mathematics"].map
      String.toList).contains requiredField then
    stemFields.any fun f => isSubstr f userField
  else if (["business", "commerce"].map String.toList).contains requiredField then
    businessFields.any fun f => isSubstr f userField
  else if (["arts", "humanities"].map String.toList).contains requiredField then
    artsFields.any fun f => isSubstr f userField
  else false

/-- Check major requirement (`EligibilityMatcher._check_major`).  The Python
loop breaks on the first bidirectional-substring match and otherwise records
whether some requirement is a related field; that control flow is equivalent
to the two `any` tests used here. -/
def checkMajor (p : UserProfile) (e : Elig) : Option RequirementMatch :=
  if e.majors.isEmpty then none
  else
    let first3 := joinSep ", ".toList (e.majors.take 3)
    if !optStrTruthy p.academic.major then
      some { requirement := "Major: ".toList ++ first3 ++ "...".toList,
             status := .unknown, userValue := some "Not specified".toList,
             requiredValue := some first3, isHard := false }
    else
      let userMajor := p.academic.major.getD []
      let um := lowerStr userMajor
      let matched := e.majors.any fun r =>
        isSubstr (lowerStr r) um || isSubstr um (lowerStr r)
      let part := e.majors.any fun r => isRelatedField um (lowerStr r)
      let status : MatchStatus :=
        if matched then .matched else if part then .partMatched else .unmatched
      some { requirement := "Major: ".toList ++ first3, status := status,
             userValue := some userMajor, requiredValue := some first3,
             isHard := false }

/-- Check degree level requirement (`EligibilityMatcher._check_degree_level`). -/
def checkDegreeLevel (p : UserProfile) (e : Elig) : Option RequirementMatch :=
  if e.degreeLevels.isEmpty then none
  else
    let reqJoined := joinSep ", ".toList e.degreeLevels
    let req := "Degree: ".toList ++ reqJoined
    match p.academic.degreeLevel with
    | none =>
        some { requirement := req, status := .unknown,
               userValue := some "Not specified".toList,
               requiredValue := some reqJoined, isHard := false }
    | some lvl =>
        let us := lowerStr lvl.val
        let matched := e.degreeLevels.any fun r =>
          isSubstr (lowerStr r) us || isSubstr us (lowerStr r)
        some { requirement := req,
               status := if matched then .matched else .unmatched,
               userValue := some lvl.val, requiredValue := some reqJoined,
               isHard := false }

/-- Check year-in-school requirement (`EligibilityMatcher._check_year`). -/
def checkYear (p : UserProfile) (e : Elig) : Option RequirementMatch :=
  if e.yearInSchool.isEmpty then none
  else
    let reqJoined := joinSep ", ".toList e.yearInSchool
    let req := "Year: ".toList ++ reqJoined
    match p.academic.yearInSchool with
    | none =>
        some { requirement := req, status := .unknown,
               userValue := some "Not specified".toList,
               requiredValue := some reqJoined, isHard := false }
    | some yr =>
        let us := lowerStr yr.val
        let matched := e.yearInSchool.any fun r =>
          isSubstr (lowerStr r) us || isSubstr us (lowerStr r)
        some { requirement := req,
               status := if matched then .matched else .unmatched,
               userValue := some yr.val, requiredValue := some reqJoined,
               isHard := false }

/-- Check demographic requirements (`EligibilityMatcher._check_demographics`).
The sequential flag/value mutation of the Python loop body is threaded
through explicit pairs, in the same order (ethnicity, first-generation,
gender, LGBTQ+). -/
def checkDemographics (p : UserProfile) (e : Elig) : List RequirementMatch :=
  if e.demographics.isEmpty then []
  else
    let eth := p.demographics.ethnicity
    e.demographics.map fun r =>
      let reqLower := lowerStr r
      let m1 := eth.any fun s =>
        isSubstr (lowerStr s) reqLower || isSubstr reqLower (lowerStr s)
      let uv1 : Option Str := if m1 then some (joinSep ", ".toList eth) else none
      let fg := isSubstr "first".toList reqLower &&
        isSubstr "generation".toList reqLower
      let s2 : Bool × Option Str :=
        if fg then
          match p.demographics.firstGeneration with
          | some true => (true, some "First-generation".toList)
          | some false => (m1, some "Not first-generation".toList)
          | none => (m1, uv1)
        else (m1, uv1)
      let s3 : Bool × Option Str :=
        match p.demographics.gender with
        | some g =>
            let gv := lowerStr g.val
            if isSubstr gv reqLower || isSubstr reqLower gv then
              (true, some g.val)
            else s2
        | none => s2
      let lq := isSubstr "lgbtq".toList reqLower ||
        isSubstr "lgbt".toList reqLower
      let s4 : Bool × Option Str :=
        if lq then
          match p.demographics.lgbtq with
          | some true => (true, some "LGBTQ+".toList)
          | some false => (s3.1, some "Not LGBTQ+".toList)
          | none => s3
        else s3
      match s4.2 with
      | none =>
          { requirement := "Demographics: ".toList ++ r, status := .unknown,
            userValue := some "Not specified".toList,
            requiredValue := some r, isHard := false }
      | some uv =>
          { requirement := "Demographics: ".toList ++ r,
            status := if s4.1 then .matched else .unmatched,
            userValue := some uv, requiredValue := some r, isHard := false }

/-- Check state-of-residence requirement (`EligibilityMatcher._check_state`). -/
def checkState (p : UserProfile) (e : Elig) : Option RequirementMatch :=
  if e.states.isEmpty then none
  else
    let reqJoined := joinSep ", ".toList e.states
    let req := "State: ".toList ++ reqJoined
    if !optStrTruthy p.location.state then
      some { requirement := req, status := .unknown,
             userValue := some "Not specified".toList,
             requiredValue := some reqJoined, isHard := false }
    else
      let userState := p.location.state.getD []
      let us := lowerStr userState
      let matched := e.states.any fun r =>
        isSubstr (lowerStr r) us || isSubstr us (lowerStr r)
      some { requirement := req,
             status := if matched then .matched else .unmatched,
             userValue := some userState, requiredValue := some reqJoined,
             isHard := false }

/-- Check financial need requirement (`EligibilityMatcher._check_financial_need`). -/
def checkFinancialNeed (p : UserProfile) (e : Elig) : Option RequirementMatch :=
  match e.financialNeed with
  | none => none
  | some requiresNeed =>
    let reqVal : Str := if requiresNeed then "Yes".toList else "No".toList
    match p.financial.financialNeed with
    | none =>
        some { requirement := "Demonstrates financial need".toList,
               status := .unknown, userValue := some "Not specified".toList,
               requiredValue := some reqVal, isHard := false }
    | some hasNeed =>
        let status : MatchStatus :=
          if requiresNeed && hasNeed then .matched
          else if !requiresNeed then .matched
          else .unmatched
        some { requirement := "Demonstrates financial need".toList,
               status := status,
               userValue := some (if hasNeed then "Yes".toList else "No".toList),
               requiredValue := some reqVal, isHard := false }

/-- Check military affiliation requirement (`EligibilityMatcher._check_military`). -/
def checkMilitary (p : UserProfile) (e : Elig) : Option RequirementMatch :=
  match e.militaryAffiliation with
  | none => none
  | some requiresMilitary =>
    let um := p.affiliations.militaryAffiliation
    let uv := p.demographics.veteran
    let hasMilitary := optStrTruthy um || decide (uv = some true)
    let reqVal : Str :=
      if requiresMilitary then "Required".toList else "Not required".toList
    if !optStrTruthy um && decide (uv = none) then
      some { requirement := "Military affiliation".toList, status := .unknown,
             userValue := some "Not specified".toList,
             requiredValue := some reqVal, isHard := false }
    else
      let status : MatchStatus :=
        if requiresMilitary && hasMilitary then .matched
        else if !requiresMilitary then .matched
        else .unmatched
      let userVal : Str :=
        if optStrTruthy um then um.getD []
        else if uv = some true then "Veteran".toList else "No".toList
      some { requirement := "Military affiliation".toList, status := status,
             userValue := some userVal, requiredValue := some reqVal,
             isHard := false }

/-- Whether a requirement match sets the matcher's `hard_failure` flag. -/
def hardFail (rm : RequirementMatch) : Bool :=
  decide (rm.status = .unmatched) && rm.isHard

/-- Match a profile against scholarship eligibility
(`EligibilityMatcher.match`). -/
def ematch (p : UserProfile) (e : Elig) (scholarshipId : Str) : MatchResult :=
  let gpaM := checkGpa p e
  let citM := checkCitizenship p e
  let details : List RequirementMatch :=
    gpaM.toList ++ citM.toList ++ (checkMajor p e).toList ++
    (checkDegreeLevel p e).toList ++ (checkYear p e).toList ++
    checkDemographics p e ++ (checkState p e).toList ++
    (checkFinancialNeed p e).toList ++ (checkMilitary p e).toList
  let hardFailure :=
    (match gpaM with | some rm => hardFail rm | none => false) ||
    (match citM with | some rm => hardFail rm | none => false)
  let matched := details.countP fun d => decide (d.status = .matched)
  let part := details.countP fun d => decide (d.status = .partMatched)
  let total := details.countP fun d =>
    decide (d.status ≠ .unknown ∧ d.status ≠ .na)
  let matchPercentage : ℚ :=
    if total > 0 then (((matched : ℚ) + (part : ℚ) * (1/2)) / (total : ℚ)) * 100
    else 100
  { scholarshipId := scholarshipId, eligible := !hardFailure,
    matchCount := matched, totalRequirements := total, partCount := part,
    matchPercentage := matchPercentage, details := details }

/-! ### Normalizer (src/processing/normalizer.py)

The date parser mirrors CPython strptime for the eleven formats in
`Normalizer.DATE_FORMATS`: each directive is an ordered alternation of
candidate consumptions (exactly CPython's component regexes, matched with
backtracking), the whole input must be consumed, and the parsed components
are validated as a calendar date.  The rendered result models
`strftime("%Y-%m-%d")` with a zero-padded four-digit year (the padding of
years below 1000 is platform-dependent in CPython; the documented padded
form, which also matches `date.isoformat`, is used). -/

/-- Numeric value of a digit character. -/
def dv (c : Char) : ℕ := c.toNat - 48

/-- Digit between one and nine (regex class [1-9]). -/
def isDigit19 (c : Char) : Bool := '1' ≤ c && c ≤ '9'

/-- First defined element of a list of options (regex-style ordered choice). -/
def firstSome {α : Type} : List (Option α) → Option α
  | [] => none
  | some x :: _ => some x
  | none :: t => firstSome t

/-- Tokens of a strptime format string. -/
inductive DTok where
  | y4
  | y2
  | mon
  | day
  | monFull
  | monAbbr
  | ws
  | lit (c : Char)

/-- Accumulated strptime components. -/
structure YMDAcc where
  y : Option ℕ := none
  m : Option ℕ := none
  d : Option ℕ := none

/-- Full month names with numbers, in CPython's length-descending
alternation order. -/
def monthsFull : List (Str × ℕ) :=
  [("september", 9), ("february", 2), ("november", 11), ("december", 12),
   ("january", 1), ("october", 10), ("august", 8), ("march", 3), ("april", 4),
   ("june", 6), ("july", 7), ("may", 5)].map fun pr => (pr.1.toList, pr.2)

/-- Abbreviated month names with numbers. -/
def monthsAbbr : List (Str × ℕ) :=
  [("jan", 1), ("feb", 2), ("mar", 3), ("apr", 4), ("may", 5), ("jun", 6),
   ("jul", 7), ("aug", 8), ("sep", 9), ("oct", 10), ("nov", 11),
   ("dec", 12)].map fun pr => (pr.1.toList, pr.2)

/-- Candidate consumptions of a month-name token (case-insensitive prefix). -/
def nameCands (names : List (Str × ℕ)) (acc : YMDAcc) (cs : Str) :
    List (YMDAcc × Str) :=
  names.filterMap fun pr =>
    if lowerStr (cs.take pr.1.length) == pr.1 then
      some ({ acc with m := some pr.2 }, cs.drop pr.1.length)
    else none

/-- Candidate consumptions of one strptime token, in regex alternation
order (CPython component patterns). -/
def applyTok (acc : YMDAcc) : DTok → Str → List (YMDAcc × Str)
  | .y4, cs =>
    match cs with
    | a :: b :: c :: e :: rest =>
      if a.isDigit && b.isDigit && c.isDigit && e.isDigit then
        [({ acc with y := some (dv a * 1000 + dv b * 100 + dv c * 10 + dv e) }, rest)]
      else []
    | _ => []
  | .y2, cs =>
    match cs with
    | a :: b :: rest =>
      if a.isDigit && b.isDigit then
        let v := dv a * 10 + dv b
        [({ acc with y := some (if v ≤ 68 then 2000 + v else 1900 + v) }, rest)]
      else []
    | _ => []
  | .mon, cs =>
    match cs with
    | a :: b :: rest =>
      (if a = '1' && (b = '0' || b = '1' || b = '2') then
        [({ acc with m := some (10 + dv b) }, rest)] else []) ++
      (if a = '0' && isDigit19 b then [({ acc with m := some (dv b) }, rest)] else []) ++
      (if isDigit19 a then [({ acc with m := some (dv a) }, b :: rest)] else [])
    | [a] => if isDigit19 a then [({ acc with m := some (dv a) }, [])] else []
    | [] => []
  | .day, cs =>
    match cs with
    | a :: b :: rest =>
      (if a = '3' && (b = '0' || b = '1') then
        [({ acc with d := some (30 + dv b) }, rest)] else []) ++
      (if (a = '1' || a = '2') && b.isDigit then
        [({ acc with d := some (dv a * 10 + dv b) }, rest)] else []) ++
      (if a = '0' && isDigit19 b then [({ acc with d := some (dv b) }, rest)] else []) ++
      (if isDigit19 a then [({ acc with d := some (dv a) }, b :: rest)] else []) ++
      (if a = ' ' && isDigit19 b then [({ acc with d := some (dv b) }, rest)] else [])
    | [a] => if isDigit19 a then [({ acc with d := some (dv a) }, [])] else []
    | [] => []
  | .monFull, cs => nameCands monthsFull acc cs
  | .monAbbr, cs => nameCands monthsAbbr acc cs
  | .ws, cs =>
    let run := (cs.takeWhile pySpace).length
    (List.range run).map fun k => (acc, cs.drop (run - k))
  | .lit c, cs =>
    match cs with
    | x :: rest => if x = c then [(acc, rest)] else []
    | [] => []

/-- Run a token list against the input with backtracking; the whole input
must be consumed (CPython checks the match covers the full string). -/
def runToks : List DTok → YMDAcc → Str → Option YMDAcc
  | [], acc, cs => if cs.isEmpty then some acc else none
  | t :: ts, acc, cs =>
    firstSome ((applyTok acc t cs).map fun pr => runToks ts pr.1 pr.2)

/-- Gregorian leap year test. -/
def isLeapYear (y : ℕ) : Bool := y % 4 = 0 && (y % 100 ≠ 0 || y % 400 = 0)

/-- Days in a month. -/
def daysInMonth (y m : ℕ) : ℕ :=
  if m = 2 then (if isLeapYear y then 29 else 28)
  else if m = 4 || m = 6 || m = 9 || m = 11 then 30
  else 31

/-- Validity of a calendar date as checked by Python's `date` constructor. -/
def validYmd (y m d : ℕ) : Bool :=
  1 ≤ y && y ≤ 9999 && 1 ≤ m && m ≤ 12 && 1 ≤ d && d ≤ daysInMonth y m

/-- Parse with one strptime format; an invalid calendar date raises
ValueError in Python, caught by the caller, so it yields `none` here.
Missing components take CPython's 1900-01-01 defaults. -/
def tryFormat (toks : List DTok) (cs : Str) : Option (ℕ × ℕ × ℕ) :=
  match runToks toks {} cs with
  | none => none
  | some acc =>
    let y := acc.y.getD 1900
    let m := acc.m.getD 1
    let d := acc.d.getD 1
    if validYmd y m d then some (y, m, d) else none

/-- ISO strptime format "%Y-%m-%d" (first entry of `DATE_FORMATS`). -/
def fmtISO : List DTok := [.y4, .lit '-', .mon, .lit '-', .day]

/-- The `Normalizer.DATE_FORMATS` list, in order. -/
def dateFormats : List (List DTok) :=
  [fmtISO,
   [.mon, .lit '/', .day, .lit '/', .y4],
   [.mon, .lit '/', .day, .lit '/', .y2],
   [.monFull, .ws, .day, .lit ',', .ws, .y4],
   [.monFull, .ws, .day, .ws, .y4],
   [.monAbbr, .ws, .day, .lit ',', .ws, .y4],
   [.monAbbr, .ws, .day, .ws, .y4],
   [.day, .ws, .monFull, .ws, .y4],
   [.day, .ws, .monAbbr, .ws, .y4],
   [.y4, .lit '/', .mon, .lit '/', .day],
   [.mon, .lit '-', .day, .lit '-', .y4]]

/-- Ordinal suffixes removed by the normalizer's re.sub. -/
def ordSuffixes : List Str := ["st", "nd", "rd", "th"].map String.toList

/-- Scanner for re.sub of (digits)(st|nd|rd|th) to the digits alone; fuel
is at least the input length so the zero case is never reached. -/
def ordStripAux : ℕ → Str → Str
  | 0, s => s
  | _ + 1, [] => []
  | f + 1, c :: rest =>
    if c.isDigit then
      let run := (c :: rest).takeWhile Char.isDigit
      let after := (c :: rest).dropWhile Char.isDigit
      match after with
      | a :: b :: rest2 =>
        if ordSuffixes.contains [a, b] then run ++ ordStripAux f rest2
        else run ++ ordStripAux f after
      | _ => run ++ ordStripAux f after
    else c :: ordStripAux f rest

/-- Removal of ordinal suffixes after digit runs. -/
def ordStrip (s : Str) : Str := ordStripAux s.length s

/-- Characters of the regex class `\w` (ASCII range; the records handled
here contain no other word characters). -/
def wChar (c : Char) : Bool := c.isAlphanum || c = '_'

/-- Month-name dictionary of the regex fallback in `normalize_date`. -/
def fallbackMonthNames : List (Str × ℕ) :=
  [("january", 1), ("february", 2), ("march", 3), ("april", 4), ("may", 5),
   ("june", 6), ("july", 7), ("august", 8), ("september", 9), ("october", 10),
   ("november", 11), ("december", 12), ("jan", 1), ("feb", 2), ("mar", 3),
   ("apr", 4), ("jun", 6), ("jul", 7), ("aug", 8), ("sep", 9), ("oct", 10),
   ("nov", 11), ("dec", 12)].map fun pr => (pr.1.toList, pr.2)

/-- Exactly four digits at the head of the input (regex `\d{4}`; a match
may end before the end of the string since the fallback uses re.search). -/
def digits4At (cs : Str) : Option ℕ :=
  match cs with
  | a :: b :: c :: e :: _ =>
    if a.isDigit && b.isDigit && c.isDigit && e.isDigit then
      some (dv a * 1000 + dv b * 100 + dv c * 10 + dv e)
    else none
  | _ => none

/-- Attempt to match the fallback pattern (word, 1-2 digit day, optional
comma, 4-digit year) at the current position, with regex backtracking
order: greedy word, greedy whitespace, two-digit day before one-digit,
comma consumed before skipped. -/
def searchAt (cs : Str) : Option (Str × ℕ × ℕ) :=
  let run := cs.takeWhile wChar
  if run.isEmpty then none
  else
    firstSome ((List.range run.length).map fun k =>
      let wlen := run.length - k
      let word := cs.take wlen
      let rest1 := cs.drop wlen
      let ws1 := (rest1.takeWhile pySpace).length
      firstSome ((List.range ws1).map fun k2 =>
        let rest2 := rest1.drop (ws1 - k2)
        let dayCandList : List (ℕ × Str) :=
          match rest2 with
          | a :: b :: r =>
            (if a.isDigit && b.isDigit then [(dv a * 10 + dv b, r)] else []) ++
            (if a.isDigit then [(dv a, b :: r)] else [])
          | [a] => if a.isDigit then [(dv a, ([] : Str))] else []
          | [] => []
        firstSome (dayCandList.map fun pr =>
          let commaCands : List Str :=
            match pr.2 with
            | ',' :: r => [r, pr.2]
            | _ => [pr.2]
          firstSome (commaCands.map fun rest4 =>
            let ws2 := (rest4.takeWhile pySpace).length
            firstSome ((List.range ws2).map fun k3 =>
              let rest5 := rest4.drop (ws2 - k3)
              match digits4At rest5 with
              | some yval => some (word, pr.1, yval)
              | none => none)))))

/-- Leftmost match of the fallback pattern (re.search scans positions in
order). -/
def reSearch : ℕ → Str → Option (Str × ℕ × ℕ)
  | 0, _ => none
  | f + 1, cs =>
    match searchAt cs with
    | some r => some r
    | none =>
      match cs with
      | [] => none
      | _ :: rest => reSearch f rest

/-- Regex fallback of `normalize_date`: leftmost pattern match, month-name
lookup, calendar validation. -/
def dateFallback (ds : Str) : Option (ℕ × ℕ × ℕ) :=
  match reSearch (ds.length + 1) ds with
  | none => none
  | some (word, dval, yval) =>
    match (fallbackMonthNames.find? fun pr => pr.1 == lowerStr word).map (·.2) with
    | none => none
    | some mval => if validYmd yval mval dval then some (yval, mval, dval) else none

/-- Zero-padded two-digit rendering (strftime %m / %d). -/
def pad2 (n : ℕ) : Str := [digitChar (n / 10), digitChar n]

/-- Zero-padded four-digit rendering (strftime %Y, modelled as padded). -/
def pad4 (n : ℕ) : Str :=
  [digitChar (n / 1000), digitChar (n / 100), digitChar (n / 10), digitChar n]

/-- Rendering of a date as "%Y-%m-%d". -/
def isoFmt (y m d : ℕ) : Str := pad4 y ++ '-' :: pad2 m ++ '-' :: pad2 d

/-- Date components produced by `normalize_date` after cleanup: the format
list in order, then the regex fallback. -/
def normDateCore (ds : Str) : Option (ℕ × ℕ × ℕ) :=
  match firstSome (dateFormats.map fun f => tryFormat f ds) with
  | some r => some r
  | none => dateFallback ds

/-- Convert a date string to ISO format (`Normalizer.normalize_date`);
`none` on failure, never an exception. -/
def normalizeDate (s : Option Str) : Option Str :=
  match s with
  | none => none
  | some ds0 =>
    if ds0.isEmpty then none
    else
      let ds := ordStrip (pyStrip ds0)
      (normDateCore ds).map fun pr => isoFmt pr.1 pr.2.1 pr.2.2

/-- Characters matched inside a money token (regex class [\d,]). -/
def moneyChar (c : Char) : Bool := c.isDigit || c = ','

/-- Non-overlapping left-to-right matches of the money regex: with
`dollar`, `\$[\d,]+(\.\d\x7b2\x7d)?`; without, the same pattern minus the
dollar sign (re.findall semantics, greedy digit run, optional two-decimal
tail). -/
def findMoneyToks (dollar : Bool) : ℕ → Str → List Str
  | 0, _ => []
  | _ + 1, [] => []
  | f + 1, c :: rest =>
    if dollar then
      if c = '$' then
        let run := rest.takeWhile moneyChar
        if run.isEmpty then findMoneyToks dollar f rest
        else
          let after := rest.drop run.length
          match after with
          | '.' :: d1 :: d2 :: rest2 =>
            if d1.isDigit && d2.isDigit then
              ('$' :: run ++ '.' :: [d1, d2]) :: findMoneyToks dollar f rest2
            else ('$' :: run) :: findMoneyToks dollar f after
          | _ => ('$' :: run) :: findMoneyToks dollar f after
      else findMoneyToks dollar f rest
    else
      if moneyChar c then
        let run := (c :: rest).takeWhile moneyChar
        let after := (c :: rest).drop run.length
        match after with
        | '.' :: d1 :: d2 :: rest2 =>
          if d1.isDigit && d2.isDigit then
            (run ++ '.' :: [d1, d2]) :: findMoneyToks dollar f rest2
          else run :: findMoneyToks dollar f after
        | _ => run :: findMoneyToks dollar f after
      else findMoneyToks dollar f rest

/-- Decimal value of a digit string. -/
def digitsToNat (s : Str) : ℕ := s.foldl (fun acc c => acc * 10 + dv c) 0

/-- Parse one money token to cents: strip dollar signs and commas, then
int or float conversion times 100.  `int("")` raises ValueError in Python
and the token is skipped, hence `none`.  The arithmetic is exact here;
Python's `int(float(clean) * 100)` can truncate one cent below the exact
value for some two-decimal strings, a divergence not exercised by any
claim. -/
def parseCents (tok : Str) : Option ℤ :=
  let clean := tok.filter fun c => !(c = '$' || c = ',')
  if clean.contains '.' then
    let intPart := clean.takeWhile fun c => c != '.'
    let frac := (clean.dropWhile fun c => c != '.').drop 1
    some ((digitsToNat intPart * 100 + digitsToNat frac : ℕ) : ℤ)
  else if clean.isEmpty then none
  else some ((digitsToNat clean * 100 : ℕ) : ℤ)

/-- Money tokens of a cleaned amount string: the dollar-sign pass, falling
back to the bare-number pass when it finds nothing. -/
def moneyToksOf (t : Str) : List Str :=
  let toks := findMoneyToks true t.length t
  if toks.isEmpty then findMoneyToks false t.length t else toks

/-- Cent values successfully parsed from the money tokens. -/
def parsedCentsOf (t : Str) : List ℤ := (moneyToksOf t).filterMap parseCents

/-- Convert an amount string to cents (`Normalizer.normalize_amount`). -/
def normalizeAmount (s : Option Str) : Option ℤ × Option ℤ :=
  match s with
  | none => (none, none)
  | some s0 =>
    if s0.isEmpty then (none, none)
    else
      let t := lowerStr (pyStrip s0)
      if isSubstr "varies".toList t || isSubstr "variable".toList t then (none, none)
      else
        if (moneyToksOf t).isEmpty then (none, none)
        else
          match parsedCentsOf t with
          | [] => (none, none)
          | [a] =>
            if isSubstr "up to".toList t || isSubstr "maximum".toList t then
              (none, some a)
            else (some a, some a)
          | a :: b :: r => (some ((b :: r).foldl min a), some ((b :: r).foldl max a))

/-- Source alias dictionary of `Normalizer.normalize_source_name`. -/
def sourceMap : List (Str × Str) :=
  [("scholarships_com", "scholarships.com"),
   ("scholarships.com", "scholarships.com"),
   ("fastweb", "fastweb"),
   ("careeronestop", "careeronestop"),
   ("CareerOneStop", "careeronestop"),
   ("iefa", "iefa"),
   ("IEFA", "iefa"),
   ("intl_scholarships_com", "internationalscholarships.com"),
   ("intl_scholarships", "internationalscholarships.com"),
   ("internationalscholarships.com", "internationalscholarships.com"),
   ("scholars4dev", "scholars4dev")].map fun pr => (pr.1.toList, pr.2.toList)

/-- Standardize source names (`Normalizer.normalize_source_name`). -/
def normalizeSourceName (s : Str) : Str :=
  match (sourceMap.find? fun pr => pr.1 == s).map (·.2) with
  | some v => v
  | none => lowerStr s

/-- Scholarship record: the dict fields read or written by the pipeline.
`parsedEligibility` is modelled by its field count (only its size and
truthiness are read by the deduplicator); the matcher receives a separate
structured `Elig` value, as `EligibilityMatcher.match` does. -/
structure Sch where
  id : Option Str := none
  title : Option Str := none
  description : Option Str := none
  source : Option Str := none
  url : Option Str := none
  applicationUrl : Option Str := none
  amount : Option Str := none
  amountRaw : Option Str := none
  amountMin : Option ℤ := none
  amountMax : Option ℤ := none
  deadline : Option Str := none
  rawEligibility : Option Str := none
  parsedEligibility : Option ℕ := none
  effortScore : Option ℤ := none
  competitionScore : Option ℤ := none
  isDuplicate : Option Bool := none
  duplicateOf : Option Str := none
deriving DecidableEq

/-- Normalize a single scholarship record
(`Normalizer.normalize_scholarship`): source name, deadline (when a
non-empty string), amount (when a non-empty string, keeping the original
in amount_raw), trimmed title, and protocol-relative URL upgrade. -/
def normalizeScholarship (r : Sch) : Sch :=
  let r1 := match r.source with
    | some s => { r with source := normalizeSourceName s }
    | none => r
  let r2 := match r1.deadline with
    | some ds => if ds.isEmpty then r1 else { r1 with deadline := normalizeDate (some ds) }
    | none => r1
  let r3 := match r2.amount with
    | some a =>
      if a.isEmpty then r2
      else
        let mm := normalizeAmount (some a)
        { r2 with amountMin := mm.1, amountMax := mm.2, amountRaw := some a }
    | none => r2
  let r4 := match r3.title with
    | some t => if t.isEmpty then r3 else { r3 with title := pyStrip t }
    | none => r3
  match r4.url with
  | some u =>
    if u.isEmpty then r4
    else if "//".toList.isPrefixOf u then { r4 with url := some ("https:".toList ++ u) }
    else r4
  | none => r4

/-- The source step of `normalize_scholarship`, as a function. -/
def nsSource (r : Sch) : Sch :=
  match r.source with
  | some s => { r with source := normalizeSourceName s }
  | none => r

/-- The deadline step of `normalize_scholarship`, as a function. -/
def nsDeadline (r : Sch) : Sch :=
  match r.deadline with
  | some ds => if ds.isEmpty then r else { r with deadline := normalizeDate (some ds) }
  | none => r

/-- The amount step of `normalize_scholarship`, as a function. -/
def nsAmount (r : Sch) : Sch :=
  match r.amount with
  | some a =>
    if a.isEmpty then r
    else
      let mm := normalizeAmount (some a)
      { r with amountMin := mm.1, amountMax := mm.2, amountRaw := some a }
  | none => r

/-- The title step of `normalize_scholarship`, as a function. -/
def nsTitle (r : Sch) : Sch :=
  match r.title with
  | some t => if t.isEmpty then r else { r with title := pyStrip t }
  | none => r

/-- The URL step of `normalize_scholarship`, as a function. -/
def nsUrl (r : Sch) : Sch :=
  match r.url with
  | some u =>
    if u.isEmpty then r
    else if "//".toList.isPrefixOf u then { r with url := some ("https:".toList ++ u) }
    else r
  | none => r

/-- Normalize a batch (`Normalizer.normalize_batch`); the per-record
try/except cannot fire in the typed model, so this is a plain map. -/
def normalizeBatch (rs : List Sch) : List Sch := rs.map normalizeScholarship

/-! ### Deduplicator (src/processing/deduplicator.py) -/

/-- Common suffix tokens stripped from titles, in the order of the Python
list. -/
def titleSuffixes : List Str :=
  ["scholarship", "scholarships", "grant", "grants", "award", "awards",
   "fellowship", "fellowships", "program", "fund", "foundation"].map String.toList

/-- One iteration of the suffix loop: remove the suffix (and the space
before it) when the title ends with it, then strip. -/
def stripOneSuffix (acc : Str) (suf : Str) : Str :=
  if (' ' :: suf).isSuffixOf acc then
    pyStrip (acc.take (acc.length - (suf.length + 1)))
  else acc

/-- Whitespace-run collapsing (re.sub of one-or-more whitespace to one
space); fuel is at least the input length. -/
def collapseWsAux : ℕ → Str → Str
  | 0, s => s
  | _ + 1, [] => []
  | f + 1, c :: rest =>
    if pySpace c then ' ' :: collapseWsAux f (rest.dropWhile pySpace)
    else c :: collapseWsAux f rest

/-- Whitespace-run collapsing. -/
def collapseWs (s : Str) : Str := collapseWsAux s.length s

/-- Normalize a title for comparison (`Deduplicator._normalize_title`):
lowercase and strip, remove each common suffix once in list order, drop
characters outside word/whitespace classes, collapse whitespace. -/
def normalizeTitle (t : Str) : Str :=
  if t.isEmpty then []
  else
    let n := pyStrip (lowerStr t)
    let n := titleSuffixes.foldl stripOneSuffix n
    let n := n.filter fun c => wChar c || pySpace c
    pyStrip (collapseWs n)

/-- Title fingerprint (`Deduplicator._title_fingerprint`).  The Python code
hashes the normalized title with truncated MD5 purely for O(1) bucketing;
the hash is modelled as the identity injection (equal fingerprints iff
equal normalized titles). -/
def titleFingerprint (t : Str) : Str := normalizeTitle t

/-- Length of the common prefix run of two strings. -/
def commonRunLen : Str → Str → ℕ
  | x :: xs, y :: ys => if x = y then commonRunLen xs ys + 1 else 0
  | _, _ => 0

/-- Longest matching block of difflib's SequenceMatcher (no junk): the
maximal common substring, ties resolved to the earliest start in the
first string and then in the second. -/
def longestMatch (a b : Str) : ℕ × ℕ × ℕ :=
  (List.range a.length).foldl (fun best i =>
    (List.range b.length).foldl (fun best j =>
      let k := commonRunLen (a.drop i) (b.drop j)
      if k > best.2.2 then (i, j, k) else best) best) (0, 0, 0)

/-- Total size of difflib's matching blocks: recursive Ratcliff-Obershelp
decomposition around the longest matching block.  (The autojunk heuristic
difflib applies to second strings of 200 characters or more is not
modelled; scholarship titles are shorter.) -/
def matchesTotal : ℕ → Str → Str → ℕ
  | 0, _, _ => 0
  | f + 1, a, b =>
    let lm := longestMatch a b
    if lm.2.2 = 0 then 0
    else
      matchesTotal f (a.take lm.1) (b.take lm.2.1) + lm.2.2 +
      matchesTotal f (a.drop (lm.1 + lm.2.2)) (b.drop (lm.2.1 + lm.2.2))

/-- SequenceMatcher.ratio: twice the matches over the total length (1 when
both strings are empty). -/
def seqRatio (a b : Str) : ℚ :=
  if a.length + b.length = 0 then 1
  else (2 * (matchesTotal (a.length + b.length + 1) a b : ℚ)) /
    ((a.length : ℚ) + (b.length : ℚ))

/-- Similarity of two titles (`Deduplicator._title_similarity`): 0 when a
normalized title is empty, 1 on exact normalized match, otherwise the
SequenceMatcher ratio of the normalized titles. -/
def titleSimilarity (t1 t2 : Str) : ℚ :=
  let n1 := normalizeTitle t1
  let n2 := normalizeTitle t2
  if n1.isEmpty || n2.isEmpty then 0
  else if n1 == n2 then 1
  else seqRatio n1 n2

/-- Length-scaled points of a truthy string field in the completeness
score. -/
def strPoints (s : Str) : ℕ := min s.length 500 / 50 + 1

/-- Completeness score (`Deduplicator._calculate_completeness`): per-field
points over the fixed field list (strings length-scaled, the parsed
eligibility dict twice its field count, integers one point), plus bonuses
for parsed eligibility, deadline and amount. -/
def completeness (s : Sch) : ℕ :=
  (if optStrTruthy s.title then strPoints (s.title.getD []) else 0) +
  (if optStrTruthy s.description then strPoints (s.description.getD []) else 0) +
  (if optIntTruthy s.amountMin then 1 else 0) +
  (if optIntTruthy s.amountMax then 1 else 0) +
  (if optStrTruthy s.deadline then strPoints (s.deadline.getD []) else 0) +
  (if optStrTruthy s.applicationUrl then strPoints (s.applicationUrl.getD []) else 0) +
  (if optStrTruthy s.rawEligibility then strPoints (s.rawEligibility.getD []) else 0) +
  (if optNatTruthy s.parsedEligibility then 2 * s.parsedEligibility.getD 0 else 0) +
  (if optNatTruthy s.parsedEligibility then 10 else 0) +
  (if optStrTruthy s.deadline then 5 else 0) +
  (if optIntTruthy s.amountMin || optIntTruthy s.amountMax then 5 else 0)

/-- Insert an index into the fingerprint bucket map (a Python dict in
insertion order). -/
def addToBucket (acc : List (Str × List ℕ)) (fp : Str) (i : ℕ) :
    List (Str × List ℕ) :=
  if acc.any fun pr => pr.1 == fp then
    acc.map fun pr => if pr.1 == fp then (pr.1, pr.2 ++ [i]) else pr
  else acc ++ [(fp, [i])]

/-- Fingerprint index of `find_duplicates`. -/
def buildBuckets (schs : List Sch) : List (Str × List ℕ) :=
  (schs.enum).foldl
    (fun acc pr => addToBucket acc (titleFingerprint ((pr.2).title.getD [])) pr.1) []

/-- All position-ordered pairs of a list (the nested i-before-j loops). -/
def allPairs : List ℕ → List (ℕ × ℕ)
  | [] => []
  | x :: xs => (xs.map fun y => (x, y)) ++ allPairs xs

/-- Title of the record at an index, defaulting to the empty string. -/
def titleAt (schs : List Sch) (i : ℕ) : Str := ((schs.getD i {}).title).getD []

/-- Exact-fingerprint bucket pass of `find_duplicates`. -/
def bucketPairs (thr : ℚ) (schs : List Sch) : List (ℕ × ℕ × ℚ) :=
  (buildBuckets schs).foldl (fun acc pr =>
    acc ++ (allPairs pr.2).filterMap fun ij =>
      let sim := titleSimilarity (titleAt schs ij.1) (titleAt schs ij.2)
      if sim ≥ thr then some (ij.1, ij.2, sim) else none) []

/-- Cross-bucket fuzzy pass of `find_duplicates`: only for inputs of at
most 1000 records, skipping pairs already found and pairs whose title
length ratio is below one half. -/
def fuzzyPairs (thr : ℚ) (schs : List Sch) (found : List (ℕ × ℕ × ℚ)) :
    List (ℕ × ℕ × ℚ) :=
  let n := schs.length
  if n ≤ 1000 then
    let checked := found.foldl
      (fun acc p => (p.1, p.2.1) :: (p.2.1, p.1) :: acc) ([] : List (ℕ × ℕ))
    (allPairs (List.range n)).filterMap fun ij =>
      if checked.contains ij then none
      else
        let t1 := titleAt schs ij.1
        let t2 := titleAt schs ij.2
        let skip :=
          if !t1.isEmpty && !t2.isEmpty then
            ((min t1.length t2.length : ℚ) / (max t1.length t2.length : ℚ)) < 1/2
          else false
        if skip then none
        else
          let sim := titleSimilarity t1 t2
          if sim ≥ thr then some (ij.1, ij.2, sim) else none
  else []

/-- Find duplicate pairs (`Deduplicator.find_duplicates`): bucket pass then
fuzzy pass.  `thr` is the configurable similarity threshold (default
0.85). -/
def findDuplicates (thr : ℚ) (schs : List Sch) : List (ℕ × ℕ × ℚ) :=
  let bp := bucketPairs thr schs
  bp ++ fuzzyPairs thr schs bp

/-- Parent lookup in the union-find array; out-of-range indices are their
own parents. -/
def pget (p : List ℕ) (x : ℕ) : ℕ := p.getD x x

/-- Root of an index by iterated parent lookup.  Path compression is an
optimization of the Python `find` that does not change its result and is
not modelled. -/
def ufFindAux : ℕ → List ℕ → ℕ → ℕ
  | 0, _, x => x
  | f + 1, p, x =>
    let px := pget p x
    if px = x then x else ufFindAux f p px

/-- Root of an index (fuel: the array length, enough for any acyclic
parent forest). -/
def ufFind (p : List ℕ) (x : ℕ) : ℕ := ufFindAux p.length p x

/-- Union by completeness (`union` in `Deduplicator.deduplicate`): the root
with the higher completeness becomes the parent, ties favoring the first. -/
def ufUnion (comp : List ℕ) (p : List ℕ) (x y : ℕ) : List ℕ :=
  let px := ufFind p x
  let py := ufFind p y
  if px = py then p
  else if comp.getD px 0 ≥ comp.getD py 0 then p.set py px else p.set px py

/-- Parent array after processing all duplicate pairs. -/
def dedupParent (thr : ℚ) (schs : List Sch) : List ℕ :=
  let comp := schs.map completeness
  (findDuplicates thr schs).foldl (fun p pr => ufUnion comp p pr.1 pr.2.1)
    (List.range schs.length)

/-- Key recorded in duplicate_of: the id when truthy, else the title. -/
def keyOf (s : Sch) : Option Str :=
  if optStrTruthy s.id then s.id else s.title

/-- Deduplicate scholarships (`Deduplicator.deduplicate`): mark every
record with is_duplicate / duplicate_of from its union-find root; with
`markOnly` false, drop the non-canonical records. -/
def deduplicate (thr : ℚ) (schs : List Sch) (markOnly : Bool) : List Sch :=
  if schs.isEmpty then []
  else
    let par := dedupParent thr schs
    (schs.enum).filterMap fun pr =>
      let root := ufFind par pr.1
      let s2 :=
        if root = pr.1 then
          { pr.2 with isDuplicate := some false, duplicateOf := none }
        else
          { pr.2 with isDuplicate := some true,
                      duplicateOf := keyOf (schs.getD root {}) }
      if markOnly || root = pr.1 then some s2 else none

/-- Neighbor list of an index in the duplicate-pair graph.  The Python
adjacency uses sets; only membership matters downstream, and the list here
is deduplicated in insertion order. -/
def neighbors (pairs : List (ℕ × ℕ × ℚ)) (x : ℕ) : List ℕ :=
  pairs.foldl (fun acc p =>
    let acc := if p.1 = x && !acc.contains p.2.1 then acc ++ [p.2.1] else acc
    if p.2.1 = x && !acc.contains p.1 then acc ++ [p.1] else acc) []

/-- Breadth-first traversal collecting one connected component
(`get_duplicate_groups` inner loop). -/
def bfsAux (pairs : List (ℕ × ℕ × ℚ)) :
    ℕ → List ℕ → List ℕ → List ℕ → List ℕ × List ℕ
  | 0, _, visited, group => (visited, group)
  | _ + 1, [], visited, group => (visited, group)
  | f + 1, node :: queue, visited, group =>
    if visited.contains node then bfsAux pairs f queue visited group
    else
      let visited2 := visited ++ [node]
      bfsAux pairs f
        (queue ++ (neighbors pairs node).filter fun nb => !visited2.contains nb)
        visited2 (group ++ [node])

/-- Connected components of the duplicate-pair graph
(`Deduplicator.get_duplicate_groups`): sorted index lists of size above
one. -/
def getDuplicateGroups (thr : ℚ) (schs : List Sch) : List (List ℕ) :=
  let pairs := findDuplicates thr schs
  let n := schs.length
  ((List.range n).foldl (fun st i =>
    if st.1.contains i then st
    else
      let res := bfsAux pairs (n * n + n + 1) [i] st.1 []
      if res.2.length > 1 then
        (res.1, st.2 ++ [res.2.mergeSort fun a b => decide (a ≤ b)])
      else (res.1, st.2)) (([] : List ℕ), ([] : List (List ℕ)))).2

/-! ### Fit scorer (src/matching/scorer.py)

Fit scores are real-valued (the Python code uses exp / log10 curves).
Dates are compared through proleptic-Gregorian day ordinals, matching
Python date subtraction. -/

/-- Cumulative days before each month plus the leap-day adjustment. -/
def daysBeforeMonth (y m : ℕ) : ℕ :=
  [0, 31, 59, 90, 120, 151, 181, 212, 243, 273, 304, 334].getD (m - 1) 0 +
    (if 2 < m && isLeapYear y then 1 else 0)

/-- Proleptic Gregorian ordinal of a date (`date.toordinal`). -/
def dateOrdinal (y m d : ℕ) : ℤ :=
  (365 * (y - 1) + (y - 1) / 4 - (y - 1) / 100 + (y - 1) / 400 +
    daysBeforeMonth y m + d : ℕ)

/-- Parse a deadline value (`FitScorer._parse_deadline`).  The records
reaching the scorer hold ISO date strings (or nothing); both
`date.fromisoformat` and the strptime fallback accept exactly the ISO
form. -/
def parseDeadline (dl : Option Str) : Option (ℕ × ℕ × ℕ) :=
  match dl with
  | none => none
  | some s => tryFormat fmtISO s

/-- Weight of the criteria-match component. -/
def weightCriteria : ℝ := 0.35

/-- Weight of the deadline-urgency component. -/
def weightDeadline : ℝ := 0.20

/-- Weight of the value-density component. -/
def weightValue : ℝ := 0.25

/-- Weight of the competition component. -/
def weightCompetition : ℝ := 0.20

/-- Default effort when missing (1-10 scale). -/
def defaultEffort : ℤ := 5

/-- Days at which deadline urgency is one half. -/
def deadlineHalfLifeDays : ℝ := 30

/-- Criteria match score (`FitScorer._calculate_criteria_match`): the match
percentage scaled to the unit interval and clamped. -/
noncomputable def calcCriteriaMatch (matchPercentage : ℚ) : ℝ :=
  min 1 (max 0 ((matchPercentage : ℝ) / 100))

/-- Deadline urgency (`FitScorer._calculate_deadline_urgency`): 0.5 with no
deadline, 0 when expired, 1 when due today, otherwise exponential decay
with a 30-day half-life, clamped. -/
noncomputable def calcDeadlineUrgency (daysUntil : Option ℤ) : ℝ :=
  match daysUntil with
  | none => 0.5
  | some d =>
    if d < 0 then 0
    else if d = 0 then 1
    else
      let decayRate := Real.log 2 / deadlineHalfLifeDays
      min 1 (max 0 (Real.exp (-decayRate * (d : ℝ))))

/-- Value density (`FitScorer._calculate_value_density`): 0.5 for unknown
amount, 0 for non-positive dollars, otherwise log10 of the dollar amount
times the inverted effort factor, scaled by 4.5 and clamped. -/
noncomputable def calcValueDensity (amountCents : Option ℤ)
    (effortScore : Option ℤ) : ℝ :=
  match amountCents with
  | none => 0.5
  | some a =>
    let effort : ℤ :=
      match effortScore with
      | some e => if e = 0 then defaultEffort else e
      | none => defaultEffort
    let amountDollars : ℝ := (a : ℝ) / 100
    if amountDollars ≤ 0 then 0
    else
      let logAmount := Real.logb 10 amountDollars
      let effortFactor : ℝ := (11 - (effort : ℝ)) / 10
      min 1 (max 0 (logAmount * effortFactor / 4.5))

/-- Competition factor (`FitScorer._calculate_competition_factor`). -/
noncomputable def calcCompetitionFactor (competitionScore : Option ℤ) : ℝ :=
  match competitionScore with
  | none => 0.5
  | some c => (11 - (c : ℝ)) / 10

/-- Complete fit score with breakdown (`FitScore`). -/
structure FitScore where
  total : ℝ
  criteriaMatch : ℝ
  deadlineUrgency : ℝ
  valueDensity : ℝ
  competitionFactor : ℝ
  matchPercentage : ℚ
  daysUntilDeadline : Option ℤ
  amount : Option ℤ
  effortScore : Option ℤ
  competitionScore : Option ℤ

/-- Calculate the fit score of a matched scholarship
(`FitScorer.calculate`); the reference date is passed as a day ordinal
(Python defaults it to today, a default the callers here always
override). -/
noncomputable def calculate (mr : MatchResult) (s : Sch) (refOrd : ℤ) :
    FitScore :=
  let matchPct := mr.matchPercentage
  let deadline := parseDeadline s.deadline
  let amount := if optIntTruthy s.amountMax then s.amountMax else s.amountMin
  let daysUntil : Option ℤ :=
    deadline.map fun pr => dateOrdinal pr.1 pr.2.1 pr.2.2 - refOrd
  let criteriaScore := calcCriteriaMatch matchPct
  let deadlineScore := calcDeadlineUrgency daysUntil
  let valueScore := calcValueDensity amount s.effortScore
  let competitionScore := calcCompetitionFactor s.competitionScore
  let total := criteriaScore * weightCriteria + deadlineScore * weightDeadline +
    valueScore * weightValue + competitionScore * weightCompetition
  { total := total,
    criteriaMatch := criteriaScore * weightCriteria,
    deadlineUrgency := deadlineScore * weightDeadline,
    valueDensity := valueScore * weightValue,
    competitionFactor := competitionScore * weightCompetition,
    matchPercentage := matchPct,
    daysUntilDeadline := daysUntil,
    amount := amount,
    effortScore := s.effortScore,
    competitionScore := s.competitionScore }

/-- Calculate fit scores for multiple scholarships
(`FitScorer.score_batch`): a length mismatch raises ValueError, modelled
as the error case. -/
noncomputable def scoreBatch (mrs : List MatchResult) (schs : List Sch)
    (refOrd : ℤ) : Except Str (List FitScore) :=
  if mrs.length ≠ schs.length then
    Except.error "match_results and scholarships must have same length".toList
  else
    Except.ok ((mrs.zip schs).map fun pr => calculate pr.1 pr.2 refOrd)

/-- A scholarship with its attached score, match result and rank, one
element of the list returned by `rank_scholarships`. -/
structure Ranked where
  sch : Sch
  fitScore : ℝ
  matchResult : Option MatchResult := none
  rank : ℕ := 0

/-- Comparison used by the descending stable sort on fit score (Python
list.sort with reverse=True). -/
noncomputable def rankLe (a b : Ranked) : Bool := decide (b.fitScore ≤ a.fitScore)

/-- Accumulation loop of `rank_scholarships`: walk the zipped inputs in
order, filter by eligibility only when `eligible_only` is set and
`match_results` is truthy (a non-empty list), attach the match result when
present; reading `match_results[i]` past its end raises IndexError,
modelled as the error case. -/
noncomputable def rankCombine (schs : List Sch) (scores : List FitScore)
    (eligibleOnly : Bool) (matchResults : Option (List MatchResult)) :
    Except Str (List Ranked) :=
  let mrs := matchResults.getD []
  let mrTruthy := match matchResults with
    | some l => !l.isEmpty
    | none => false
  ((schs.zip scores).enum).foldl
    (fun (acc : Except Str (List Ranked)) pr =>
      match acc with
      | .error e => .error e
      | .ok lst =>
        let entry : Ranked :=
          { sch := pr.2.1, fitScore := (pr.2.2).total,
            matchResult := if mrTruthy then mrs[pr.1]? else none }
        if eligibleOnly && mrTruthy then
          match mrs[pr.1]? with
          | none => .error "IndexError: list index out of range".toList
          | some mr => if !mr.eligible then .ok lst else .ok (lst ++ [entry])
        else .ok (lst ++ [entry])) (.ok [])

/-- Sort descending by fit score (stable, like Python list.sort) and
assign one-based ranks in sorted order. -/
noncomputable def rankFinish (lst : List Ranked) : List Ranked :=
  ((lst.mergeSort rankLe).enum).map fun pr => { pr.2 with rank := pr.1 + 1 }

/-- Rank scholarships by fit score (`FitScorer.rank_scholarships`). -/
noncomputable def rankScholarships (schs : List Sch) (scores : List FitScore)
    (eligibleOnly : Bool) (matchResults : Option (List MatchResult)) :
    Except Str (List Ranked) :=
  match rankCombine schs scores eligibleOnly matchResults with
  | .error e => .error e
  | .ok lst => .ok (rankFinish lst)

/-! ### Specification relations used by the union-find proofs -/

/-- Chain of parent links from a node to its root: the list collects the
nodes visited (the start first, the root last).  This is a specification
relation for reasoning about `ufFind`; the existence of a finite chain
encodes termination of the parent walk. -/
inductive RC (p : List ℕ) : ℕ → List ℕ → ℕ → Prop where
  | base (x : ℕ) : pget p x = x → RC p x [x] x
  | step (x : ℕ) {l : List ℕ} {r : ℕ} : pget p x ≠ x → RC p (pget p x) l r →
      RC p x (x :: l) r

/-- Well-formedness of a union-find parent array of size n: correct
length, entries in range, and a finite root chain from every node below
n. -/
def UFInv (n : ℕ) (p : List ℕ) : Prop :=
  p.length = n ∧ (∀ i, i < n → pget p i < n) ∧
  (∀ x, x < n → ∃ l r, RC p x l r)

/-- Undirected adjacency induced by a duplicate-pair list: the two indices
of some pair, in either orientation. -/
def Edge (pairs : List (ℕ × ℕ × ℚ)) (x y : ℕ) : Prop :=
  ∃ p ∈ pairs, (p.1 = x ∧ p.2.1 = y) ∨ (p.1 = y ∧ p.2.1 = x)

/-- Connectivity in the duplicate-pair graph: the reflexive-transitive
closure of adjacency. -/
def Conn (pairs : List (ℕ × ℕ × ℚ)) : ℕ → ℕ → Prop :=
  Relation.ReflTransGen (Edge pairs)

/-- A union-find state agrees with a pair list when roots coincide exactly
on connected indices. -/
def UFConn (n : ℕ) (pairs : List (ℕ × ℕ × ℚ)) (p : List ℕ) : Prop :=
  UFInv n p ∧
  ∀ x y, x < n → y < n → (ufFind p x = ufFind p y ↔ Conn pairs x y)

/-- Number of indices below n not yet visited. -/
def unvisitedCard (n : ℕ) (visited : List ℕ) : ℕ :=
  ((Finset.range n).filter (fun x => x ∉ visited)).card

/-- Termination potential of the breadth-first traversal: queue length
plus a per-unvisited-node budget covering the node and its neighbor
list. -/
def bfsPot (n : ℕ) (q visited : List ℕ) : ℕ :=
  q.length + unvisitedCard n visited * (n + 1)

/-! ### Concrete inputs used by the theorems -/

/-- Profile for the match-percentage example: GPA 3.8, computer science,
undergraduate, US citizen. -/
def c2Profile : UserProfile :=
  { academic := { gpa := some (38/10), major := some "Computer Science".toList,
                  degreeLevel := some .undergraduate },
    location := { citizenshipStatus := some .usCitizen } }

/-- Eligibility for the match-percentage example: GPA and citizenship and
degree requirements matched, STEM major related to computer science. -/
def c2Elig : Elig :=
  { minGpa := some (35/10), citizenship := ["US Citizen".toList],
    majors := ["STEM".toList], degreeLevels := ["undergraduate".toList] }

/-- A fixed fit-score value used by concrete ranking examples. -/
noncomputable def c8Score : FitScore :=
  { total := 0, criteriaMatch := 0, deadlineUrgency := 0, valueDensity := 0,
    competitionFactor := 0, matchPercentage := 0, daysUntilDeadline := none,
    amount := none, effortScore := none, competitionScore := none }

/-- Default similarity threshold 0.85, written as a normalized rational
literal (numerator 17, denominator 20) so that concrete runs reduce. -/
def defaultThreshold : ℚ := ⟨17, 20, by decide, by decide⟩

/-- First deduplication example title. -/
def c5TitleA : Str := "Women in STEM Scholarship".toList

/-- Second deduplication example title of the spec. -/
def c5TitleB : Str := "women in stem scholarship award".toList

/-- Replacement second title whose normalization does agree with the
first. -/
def c5TitleB2 : Str := "Women in STEM Award".toList

/-- Sparse record carrying only the first example title. -/
def c5RecPoor : Sch := { title := some c5TitleA }

/-- Rich record: replacement title plus description, parsed eligibility
and deadline (completeness 26 against 1). -/
def c5RecRich : Sch :=
  { title := some c5TitleB2, description := some (List.replicate 120 'x'),
    parsedEligibility := some 3, deadline := some "2026-02-15".toList }

/-- Record exercising every normalization step with a stable source
name. -/
def c9Rec : Sch :=
  { title := some "  My STEM Grant  ".toList, source := some "fastweb".toList,
    deadline := some "Feb 2nd, 2026".toList, amount := some "$1,000".toList,
    url := some "//example.org/x".toList }

/-! ### Theorems -/

theorem checkMajor_isHard (p : UserProfile) (e : Elig) (rm : RequirementMatch)
    (h : checkMajor p e = some rm) : rm.isHard = false := by
  unfold checkMajor at h
  repeat' first | split at h | simp_all
  all_goals (first | rfl | (subst h; rfl))

theorem checkDegreeLevel_isHard (p : UserProfile) (e : Elig) (rm : RequirementMatch)
    (h : checkDegreeLevel p e = some rm) : rm.isHard = false := by
  unfold checkDegreeLevel at h
  repeat' first | split at h | simp_all
  all_goals (first | rfl | (subst h; rfl))

theorem checkYear_isHard (p : UserProfile) (e : Elig) (rm : RequirementMatch)
    (h : checkYear p e = some rm) : rm.isHard = false := by
  unfold checkYear at h
  repeat' first | split at h | simp_all
  all_goals (first | rfl | (subst h; rfl))

theorem checkDemographics_isHard (p : UserProfile) (e : Elig)
    (rm : RequirementMatch) (h : rm ∈ checkDemographics p e) :
    rm.isHard = false := by
  unfold checkDemographics at h
  split at h
  · simp at h
  · simp only [List.mem_map] at h
    obtain ⟨r, -, hr⟩ := h
    subst hr
    split <;> rfl

theorem checkState_isHard (p : UserProfile) (e : Elig) (rm : RequirementMatch)
    (h : checkState p e = some rm) : rm.isHard = false := by
  unfold checkState at h
  repeat' first | split at h | simp_all
  all_goals (first | rfl | (subst h; rfl))

theorem checkFinancialNeed_isHard (p : UserProfile) (e : Elig) (rm : RequirementMatch)
    (h : checkFinancialNeed p e = some rm) : rm.isHard = false := by
  unfold checkFinancialNeed at h
  repeat' first | split at h | simp_all
  all_goals (first | rfl | (subst h; rfl))

theorem checkMilitary_isHard (p : UserProfile) (e : Elig) (rm : RequirementMatch)
    (h : checkMilitary p e = some rm) : rm.isHard = false := by
  unfold checkMilitary at h
  repeat' first | split at h | simp_all
  all_goals (first | rfl | (subst h; rfl))

theorem ematch_details (p : UserProfile) (e : Elig) (sid : Str) :
    (ematch p e sid).details =
      (checkGpa p e).toList ++ (checkCitizenship p e).toList ++
      (checkMajor p e).toList ++ (checkDegreeLevel p e).toList ++
      (checkYear p e).toList ++ checkDemographics p e ++
      (checkState p e).toList ++ (checkFinancialNeed p e).toList ++
      (checkMilitary p e).toList := rfl

theorem ematch_eligible (p : UserProfile) (e : Elig) (sid : Str) :
    (ematch p e sid).eligible =
      !((match checkGpa p e with | some rm => hardFail rm | none => false) ||
        (match checkCitizenship p e with | some rm => hardFail rm | none => false)) := rfl

theorem mem_ematch_details_cases (p : UserProfile) (e : Elig) (sid : Str)
    (rm : RequirementMatch) (h : rm ∈ (ematch p e sid).details) :
    checkGpa p e = some rm ∨ checkCitizenship p e = some rm ∨
      rm.isHard = false := by
  rw [ematch_details] at h
  simp only [List.mem_append, Option.mem_toList, Option.mem_def] at h
  rcases h with ((((((((h | h) | h) | h) | h) | h) | h) | h) | h)
  · exact Or.inl h
  · exact Or.inr (Or.inl h)
  · exact Or.inr (Or.inr (checkMajor_isHard p e rm h))
  · exact Or.inr (Or.inr (checkDegreeLevel_isHard p e rm h))
  · exact Or.inr (Or.inr (checkYear_isHard p e rm h))
  · exact Or.inr (Or.inr (checkDemographics_isHard p e rm h))
  · exact Or.inr (Or.inr (checkState_isHard p e rm h))
  · exact Or.inr (Or.inr (checkFinancialNeed_isHard p e rm h))
  · exact Or.inr (Or.inr (checkMilitary_isHard p e rm h))

/-- C1: any hard requirement evaluated as unmatched forces the overall
result ineligible; for the two hard requirements (GPA, citizenship), a
missing user datum yields status unknown; and when no hard requirement is
unmatched, the result is eligible (so unknown hard requirements alone
never disqualify). -/
theorem C1_hard_requirement_semantics (p : UserProfile) (e : Elig) (sid : Str) :
    (∀ rm ∈ (ematch p e sid).details, rm.isHard = true →
      rm.status = MatchStatus.unmatched → (ematch p e sid).eligible = false) ∧
    (e.minGpa.isSome → p.academic.gpa = none →
      ∃ rm, checkGpa p e = some rm ∧ rm.status = MatchStatus.unknown ∧
        rm.isHard = true) ∧
    (e.citizenship ≠ [] → p.location.citizenshipStatus = none →
      ∃ rm, checkCitizenship p e = some rm ∧ rm.status = MatchStatus.unknown ∧
        rm.isHard = true) ∧
    ((∀ rm ∈ (ematch p e sid).details, rm.isHard = true →
        rm.status ≠ MatchStatus.unmatched) →
      (ematch p e sid).eligible = true) := by
  refine ⟨?_, ?_, ?_, ?_⟩
  · intro rm hmem hhard hst
    rcases mem_ematch_details_cases p e sid rm hmem with h | h | h
    · rw [ematch_eligible, h]
      have : hardFail rm = true := by simp [hardFail, hst, hhard]
      simp [this]
    · rw [ematch_eligible, h]
      have : hardFail rm = true := by simp [hardFail, hst, hhard]
      simp [this]
    · rw [hhard] at h
      cases h
  · intro hg hnone
    obtain ⟨g, hg⟩ := Option.isSome_iff_exists.mp hg
    refine ⟨{ requirement := "GPA >= ".toList ++ ratToStr g,
              status := MatchStatus.unknown,
              userValue := some "Not specified".toList,
              requiredValue := some (ratToStr g), isHard := true }, ?_, rfl, rfl⟩
    unfold checkGpa
    rw [hg, hnone]
  · intro hc hnone
    refine ⟨{ requirement := "Citizenship: ".toList ++
                joinSep ", ".toList e.citizenship,
              status := MatchStatus.unknown,
              userValue := some "Not specified".toList,
              requiredValue := some (joinSep ", ".toList e.citizenship),
              isHard := true }, ?_, rfl, rfl⟩
    unfold checkCitizenship
    rw [hnone]
    simp [List.isEmpty_iff, hc]
  · intro hall
    rw [ematch_eligible]
    have hg : (match checkGpa p e with
        | some rm => hardFail rm | none => false) = false := by
      cases hcg : checkGpa p e with
      | none => rfl
      | some rm =>
        have hmem : rm ∈ (ematch p e sid).details := by
          rw [ematch_details]
          simp [hcg]
        simp only [hardFail, Bool.and_eq_true, decide_eq_true_eq]
        by_cases hh : rm.isHard
        · have := hall rm hmem hh
          simp [this]
        · simp [hh]
    have hc : (match checkCitizenship p e with
        | some rm => hardFail rm | none => false) = false := by
      cases hcc : checkCitizenship p e with
      | none => rfl
      | some rm =>
        have hmem : rm ∈ (ematch p e sid).details := by
          rw [ematch_details]
          simp [hcc]
        simp only [hardFail, Bool.and_eq_true, decide_eq_true_eq]
        by_cases hh : rm.isHard
        · have := hall rm hmem hh
          simp [this]
        · simp [hh]
    rw [hg, hc]
    rfl

/-- Witness for C1 at a concrete input: a profile without GPA against a
GPA-and-citizenship requirement is evaluated unknown on GPA and stays
eligible; a low-GPA profile is evaluated unmatched and ineligible. -/
theorem C1_hard_requirement_semantics_witness :
    (∃ rm, checkGpa { location := { citizenshipStatus := some .usCitizen } }
        { minGpa := some 3, citizenship := ["US Citizen".toList] } = some rm ∧
        rm.status = MatchStatus.unknown ∧ rm.isHard = true) ∧
    (ematch { location := { citizenshipStatus := some .usCitizen } }
      { minGpa := some 3, citizenship := ["US Citizen".toList] } []).eligible = true := by
  constructor
  · exact (C1_hard_requirement_semantics
      { location := { citizenshipStatus := some .usCitizen } }
      { minGpa := some 3, citizenship := ["US Citizen".toList] } []).2.1
      (by with_unfolding_all decide) rfl
  · exact (C1_hard_requirement_semantics
      { location := { citizenshipStatus := some .usCitizen } }
      { minGpa := some 3, citizenship := ["US Citizen".toList] } []).2.2.2
      (by with_unfolding_all decide)

theorem countP_add_le_countP {α : Type} (l : List α) (p q r : α → Bool)
    (hp : ∀ x, p x = true → r x = true) (hq : ∀ x, q x = true → r x = true)
    (hpq : ∀ x, ¬(p x = true ∧ q x = true)) :
    l.countP p + l.countP q ≤ l.countP r := by
  induction l with
  | nil => simp
  | cons a t ih =>
    simp only [List.countP_cons]
    have h1 := hp a
    have h2 := hq a
    have h3 := hpq a
    cases hP : p a <;> cases hQ : q a <;> cases hR : r a <;> simp_all <;> omega

theorem ematch_matchCount (p : UserProfile) (e : Elig) (sid : Str) :
    (ematch p e sid).matchCount =
      (ematch p e sid).details.countP
        fun d => decide (d.status = MatchStatus.matched) := rfl

theorem ematch_partCount (p : UserProfile) (e : Elig) (sid : Str) :
    (ematch p e sid).partCount =
      (ematch p e sid).details.countP
        fun d => decide (d.status = MatchStatus.partMatched) := rfl

theorem ematch_totalRequirements (p : UserProfile) (e : Elig) (sid : Str) :
    (ematch p e sid).totalRequirements =
      (ematch p e sid).details.countP
        fun d => decide (d.status ≠ MatchStatus.unknown ∧
          d.status ≠ MatchStatus.na) := rfl

theorem ematch_matchPercentage (p : UserProfile) (e : Elig) (sid : Str) :
    (ematch p e sid).matchPercentage =
      if 0 < (ematch p e sid).totalRequirements then
        (((ematch p e sid).matchCount : ℚ) +
          ((ematch p e sid).partCount : ℚ) * (1/2)) /
          ((ematch p e sid).totalRequirements : ℚ) * 100
      else 100 := rfl

theorem ematch_counts_le (p : UserProfile) (e : Elig) (sid : Str) :
    (ematch p e sid).matchCount + (ematch p e sid).partCount ≤
      (ematch p e sid).totalRequirements := by
  rw [ematch_matchCount, ematch_partCount, ematch_totalRequirements]
  apply countP_add_le_countP
  · intro x hx
    simp only [decide_eq_true_eq] at hx ⊢
    rw [hx]
    exact ⟨by simp, by simp⟩
  · intro x hx
    simp only [decide_eq_true_eq] at hx ⊢
    rw [hx]
    exact ⟨by simp, by simp⟩
  · intro x ⟨h1, h2⟩
    simp only [decide_eq_true_eq] at h1 h2
    rw [h1] at h2
    cases h2

/-- C2: the match percentage is (matched + 0.5 partial) over the count of
requirements whose status is neither unknown nor n/a, times 100, with an
empty considered set giving 100; it always lies in [0, 100]; and the
3-matched / 1-partial / 4-considered example evaluates to 87.5. -/
theorem C2_match_percentage_formula :
    (∀ (p : UserProfile) (e : Elig) (sid : Str),
      ((ematch p e sid).matchPercentage =
        if (ematch p e sid).totalRequirements = 0 then 100
        else ((((ematch p e sid).details.countP
            fun d => decide (d.status = MatchStatus.matched)) : ℚ) +
          (((ematch p e sid).details.countP
            fun d => decide (d.status = MatchStatus.partMatched)) : ℚ) * (1/2)) /
          ((((ematch p e sid).details.countP
            fun d => decide (d.status ≠ MatchStatus.unknown ∧
              d.status ≠ MatchStatus.na)) : ℚ)) * 100) ∧
      0 ≤ (ematch p e sid).matchPercentage ∧
      (ematch p e sid).matchPercentage ≤ 100) ∧
    ((ematch c2Profile c2Elig []).matchCount = 3 ∧
      (ematch c2Profile c2Elig []).partCount = 1 ∧
      (ematch c2Profile c2Elig []).totalRequirements = 4 ∧
      (ematch c2Profile c2Elig []).matchPercentage = 87.5) := by
  constructor
  · intro p e sid
    have hcounts := ematch_counts_le p e sid
    have hform := ematch_matchPercentage p e sid
    have hmc := ematch_matchCount p e sid
    have hpc := ematch_partCount p e sid
    have htr := ematch_totalRequirements p e sid
    obtain ⟨r, hr⟩ : ∃ r, ematch p e sid = r := ⟨_, rfl⟩
    rw [hr] at hcounts hform hmc hpc htr ⊢
    refine ⟨?_, ?_, ?_⟩
    · rw [hform, ← hmc, ← hpc, ← htr]
      rcases Nat.eq_zero_or_pos r.totalRequirements with h0 | hpos
      · rw [if_neg (by omega), if_pos h0]
      · rw [if_pos hpos, if_neg (by omega)]
    · rw [hform]
      split
      · positivity
      · norm_num
    · rw [hform]
      split
      · rename_i hpos
        have htQ : (0:ℚ) < (r.totalRequirements : ℚ) := by exact_mod_cast hpos
        have hle : (r.matchCount : ℚ) + (r.partCount : ℚ) * (1/2) ≤
            (r.totalRequirements : ℚ) := by
          have h1 : (r.matchCount : ℚ) + (r.partCount : ℚ) ≤
              (r.totalRequirements : ℚ) := by exact_mod_cast hcounts
          have h2 : (r.partCount : ℚ) * (1/2) ≤ (r.partCount : ℚ) := by
            have h3 : (0:ℚ) ≤ (r.partCount : ℚ) := by positivity
            linarith
          linarith
        rw [div_mul_eq_mul_div, div_le_iff₀ htQ]
        linarith
      · norm_num
  · refine ⟨?_, ?_, ?_, ?_⟩ <;> with_unfolding_all decide

/-- C3: the three documented amount parses, and the general single-amount
and unparseable rules of normalize_amount. -/
theorem C3_normalize_amount :
    (normalizeAmount (some "$1,000 - $5,000".toList) = (some 100000, some 500000)) ∧
    (normalizeAmount (some "Up to $10,000".toList) = (none, some 1000000)) ∧
    (normalizeAmount (some "Varies".toList) = (none, none)) ∧
    (∀ (s : Str) (a : ℤ), s.isEmpty = false →
      isSubstr "varies".toList (lowerStr (pyStrip s)) = false →
      isSubstr "variable".toList (lowerStr (pyStrip s)) = false →
      parsedCentsOf (lowerStr (pyStrip s)) = [a] →
      ((isSubstr "up to".toList (lowerStr (pyStrip s)) = true ∨
        isSubstr "maximum".toList (lowerStr (pyStrip s)) = true) →
        normalizeAmount (some s) = (none, some a)) ∧
      (isSubstr "up to".toList (lowerStr (pyStrip s)) = false →
        isSubstr "maximum".toList (lowerStr (pyStrip s)) = false →
        normalizeAmount (some s) = (some a, some a))) ∧
    (∀ s : Str, parsedCentsOf (lowerStr (pyStrip s)) = [] →
      normalizeAmount (some s) = (none, none)) := by
  refine ⟨by decide, by decide,
    by decide, ?_, ?_⟩
  · intro s a hne hv1 hv2 hparsed
    have htoks : (moneyToksOf (lowerStr (pyStrip s))).isEmpty = false := by
      rcases h : (moneyToksOf (lowerStr (pyStrip s))) with _ | _
      · rw [parsedCentsOf, h] at hparsed
        cases hparsed
      · rfl
    simp only [String.toList] at hv1 hv2
    constructor
    · intro hq
      rcases hq with hq | hq <;> simp only [String.toList] at hq <;>
        simp [normalizeAmount, hne, hv1, hv2, htoks, hparsed, hq]
    · intro hq1 hq2
      simp only [String.toList] at hq1 hq2
      simp [normalizeAmount, hne, hv1, hv2, htoks, hparsed, hq1, hq2]
  · intro s hparsed
    cases he : s.isEmpty
    · cases hv1 : isSubstr "varies".toList (lowerStr (pyStrip s))
      · cases hv2 : isSubstr "variable".toList (lowerStr (pyStrip s))
        · cases ht : (moneyToksOf (lowerStr (pyStrip s))).isEmpty
          · simp only [String.toList] at hv1 hv2
            simp [normalizeAmount, he, hv1, hv2, ht, hparsed]
          · simp only [String.toList] at hv1 hv2
            simp [normalizeAmount, he, hv1, hv2, ht]
        · simp only [String.toList] at hv1 hv2
          simp [normalizeAmount, he, hv1, hv2]
      · simp only [String.toList] at hv1
        simp [normalizeAmount, he, hv1]
    · simp [normalizeAmount, he]

/-- Witness for C3's general rules at concrete inputs: a bare single
amount with an up-to qualifier, a bare single amount without one, and an
unparseable string. -/
theorem C3_normalize_amount_witness :
    normalizeAmount (some "up to 5000".toList) = (none, some 500000) ∧
    normalizeAmount (some "$2,500".toList) = (some 250000, some 250000) ∧
    normalizeAmount (some "full tuition".toList) = (none, none) := by
  refine ⟨?_, ?_, ?_⟩
  · exact (C3_normalize_amount.2.2.2.1 "up to 5000".toList 500000
      (by decide) (by decide)
      (by decide) (by decide)).1
      (Or.inl (by decide))
  · exact (C3_normalize_amount.2.2.2.1 "$2,500".toList 250000
      (by decide) (by decide)
      (by decide) (by decide)).2
      (by decide) (by decide)
  · exact C3_normalize_amount.2.2.2.2 "full tuition".toList
      (by decide)

theorem calcDeadlineUrgency_pos (d : ℤ) (hd : 0 < d) :
    calcDeadlineUrgency (some d) =
      Real.exp (-(Real.log 2 / 30) * (d : ℝ)) := by
  simp only [calcDeadlineUrgency, deadlineHalfLifeDays]
  rw [if_neg (by omega), if_neg (by omega)]
  have hc : (0:ℝ) < Real.log 2 / 30 :=
    div_pos (Real.log_pos (by norm_num)) (by norm_num)
  have hdR : (0:ℝ) < (d : ℝ) := by exact_mod_cast hd
  have hexp : (0:ℝ) < Real.exp (-(Real.log 2 / 30) * (d : ℝ)) := Real.exp_pos _
  have hle : Real.exp (-(Real.log 2 / 30) * (d : ℝ)) ≤ 1 := by
    rw [Real.exp_le_one_iff]
    nlinarith
  rw [max_eq_right hexp.le, min_eq_right hle]

/-- C4: the deadline urgency is 0.5 with no deadline, 0 when expired, 1
when due today, the clamped 30-day-half-life exponential otherwise; it
equals 0.5 at 30 days out, and decreasing the days-until-deadline over 60
down to 0 strictly increases it. -/
theorem C4_deadline_urgency :
    calcDeadlineUrgency none = 0.5 ∧
    (∀ d : ℤ, d < 0 → calcDeadlineUrgency (some d) = 0) ∧
    calcDeadlineUrgency (some 0) = 1 ∧
    (∀ d : ℤ, 0 < d → calcDeadlineUrgency (some d) =
      min 1 (max 0 (Real.exp (-(Real.log 2 / 30) * (d : ℝ))))) ∧
    calcDeadlineUrgency (some 30) = 0.5 ∧
    (∀ d1 d2 : ℤ, 0 ≤ d1 → d1 < d2 → d2 ≤ 60 →
      calcDeadlineUrgency (some d2) < calcDeadlineUrgency (some d1)) := by
  have hc : (0:ℝ) < Real.log 2 / 30 :=
    div_pos (Real.log_pos (by norm_num)) (by norm_num)
  refine ⟨rfl, ?_, ?_, ?_, ?_, ?_⟩
  · intro d hd
    simp only [calcDeadlineUrgency]
    rw [if_pos hd]
  · simp only [calcDeadlineUrgency]
    norm_num
  · intro d hd
    simp only [calcDeadlineUrgency, deadlineHalfLifeDays]
    rw [if_neg (by omega), if_neg (by omega)]
  · rw [calcDeadlineUrgency_pos 30 (by norm_num)]
    have h30 : (-(Real.log 2 / 30) * ((30:ℤ) : ℝ)) = -Real.log 2 := by
      push_cast
      ring
    rw [h30, Real.exp_neg, Real.exp_log (by norm_num : (0:ℝ) < 2)]
    norm_num
  · intro d1 d2 h0 h12 _
    have hd2 : 0 < d2 := by omega
    rw [calcDeadlineUrgency_pos d2 hd2]
    rcases eq_or_lt_of_le h0 with h1z | h1p
    · rw [← h1z]
      simp only [calcDeadlineUrgency]
      norm_num
      have : (0:ℝ) < ((d2:ℤ) : ℝ) := by exact_mod_cast hd2
      nlinarith
    · rw [calcDeadlineUrgency_pos d1 h1p]
      apply Real.exp_lt_exp.mpr
      have hR : ((d1:ℤ) : ℝ) < ((d2:ℤ) : ℝ) := by exact_mod_cast h12
      nlinarith

/-- Witness for C4 at concrete inputs: an expired deadline scores 0, and
the urgency at 30 days out is strictly below the urgency at day 0. -/
theorem C4_deadline_urgency_witness :
    calcDeadlineUrgency (some (-5)) = 0 ∧
    calcDeadlineUrgency (some 30) < calcDeadlineUrgency (some 0) := by
  constructor
  · exact C4_deadline_urgency.2.1 (-5) (by norm_num)
  · exact C4_deadline_urgency.2.2.2.2.2 0 30 (by norm_num) (by norm_num)
      (by norm_num)

/-- C7: score_batch fails exactly on a length mismatch, and otherwise
returns one fit score per input pair via calculate, in input order. -/
theorem C7_score_batch_lengths (mrs : List MatchResult) (schs : List Sch)
    (refOrd : ℤ) :
    (mrs.length ≠ schs.length →
      scoreBatch mrs schs refOrd =
        Except.error "match_results and scholarships must have same length".toList) ∧
    (mrs.length = schs.length →
      ∃ l, scoreBatch mrs schs refOrd = Except.ok l ∧
        l.length = mrs.length ∧
        l = (mrs.zip schs).map fun pr => calculate pr.1 pr.2 refOrd) := by
  constructor
  · intro h
    unfold scoreBatch
    rw [if_pos h]
  · intro h
    refine ⟨_, ?_, ?_, rfl⟩
    · unfold scoreBatch
      rw [if_neg (by omega)]
    · rw [List.length_map, List.length_zip, h, Nat.min_self]

/-- Witness for C7 at concrete inputs: mismatched lengths error out, equal
lengths score the one pair. -/
theorem C7_score_batch_lengths_witness :
    scoreBatch [] [{}] 0 =
      Except.error "match_results and scholarships must have same length".toList ∧
    ∃ l, scoreBatch [default] [{}] 0 = Except.ok l ∧ l.length = 1 ∧
      l = ([(default : MatchResult)].zip [({} : Sch)]).map
        fun pr => calculate pr.1 pr.2 0 := by
  constructor
  · exact (C7_score_batch_lengths [] [{}] 0).1 (by decide)
  · exact (C7_score_batch_lengths [default] [{}] 0).2 rfl

theorem rankFinish_ranks (l : List Ranked) :
    (rankFinish l).map Ranked.rank = List.range' 1 (rankFinish l).length := by
  unfold rankFinish
  rw [List.map_map, List.length_map, List.enum_length]
  have h1 : ((l.mergeSort rankLe).enum).map
      (Ranked.rank ∘ fun pr => { pr.2 with rank := pr.1 + 1 }) =
      ((l.mergeSort rankLe).enum).map (fun pr => pr.1 + 1) := by
    apply List.map_congr_left
    intro a _
    rfl
  rw [h1]
  have h2 : ((l.mergeSort rankLe).enum).map (fun pr => pr.1 + 1) =
      (((l.mergeSort rankLe).enum).map Prod.fst).map (fun i => i + 1) := by
    rw [List.map_map]
    rfl
  rw [h2, List.enum_map_fst, List.range'_eq_map_range]
  apply List.map_congr_left
  intro a _
  omega

theorem rankFinish_sorted (l : List Ranked) :
    List.Sorted (fun a b : Ranked => b.fitScore ≤ a.fitScore) (rankFinish l) := by
  have hsort := @List.sorted_mergeSort Ranked rankLe
    (fun a b c hab hbc => by
      simp only [rankLe, decide_eq_true_eq] at hab hbc ⊢
      exact le_trans hbc hab)
    (fun a b => by
      simp only [rankLe, Bool.or_eq_true, decide_eq_true_eq]
      exact le_total b.fitScore a.fitScore)
    l
  unfold rankFinish
  unfold List.Sorted
  rw [List.pairwise_map]
  have hsnd : List.Pairwise
      (fun p q : ℕ × Ranked => q.2.fitScore ≤ p.2.fitScore)
      ((l.mergeSort rankLe).enum) := by
    have := (List.pairwise_map
      (f := (Prod.snd : ℕ × Ranked → Ranked))
      (R := fun a b : Ranked => b.fitScore ≤ a.fitScore)
      (l := (l.mergeSort rankLe).enum)).mp
    apply this
    rw [List.enum_map_snd]
    refine hsort.imp ?_
    intro a b hab
    simpa [rankLe] using hab
  exact hsnd.imp fun hab => hab

theorem rankFinish_perm (l : List Ranked) :
    ((rankFinish l).map Ranked.sch).Perm (l.map Ranked.sch) := by
  unfold rankFinish
  rw [List.map_map]
  have h1 : (Ranked.sch ∘ fun pr : ℕ × Ranked => { pr.2 with rank := pr.1 + 1 }) =
      fun pr : ℕ × Ranked => pr.2.sch := rfl
  rw [h1]
  have h2 : ((l.mergeSort rankLe).enum).map (fun pr : ℕ × Ranked => pr.2.sch) =
      (((l.mergeSort rankLe).enum).map Prod.snd).map Ranked.sch := by
    rw [List.map_map]
    rfl
  rw [h2, List.enum_map_snd]
  exact (List.mergeSort_perm l rankLe).map Ranked.sch

/-- C8: with equal-length inputs, any list returned by rank_scholarships is
sorted non-increasingly by fit score and its rank fields are exactly
1, 2, ..., n in output order. -/
theorem C8_rank_sorted_and_contiguous (schs : List Sch)
    (scores : List FitScore) (eligibleOnly : Bool)
    (matchResults : Option (List MatchResult)) (out : List Ranked)
    (_hlen : schs.length = scores.length)
    (hok : rankScholarships schs scores eligibleOnly matchResults =
      Except.ok out) :
    out.map Ranked.rank = List.range' 1 out.length ∧
    List.Sorted (fun a b : Ranked => b.fitScore ≤ a.fitScore) out := by
  unfold rankScholarships at hok
  rcases hc : rankCombine schs scores eligibleOnly matchResults with e | lst
  · rw [hc] at hok
    cases hok
  · rw [hc] at hok
    cases hok
    exact ⟨rankFinish_ranks lst, rankFinish_sorted lst⟩

theorem foldl_ok_append {α β : Type} (step : Except Str (List α) → β → Except Str (List α))
    (g : β → α) (hstep : ∀ l0 x, step (Except.ok l0) x = Except.ok (l0 ++ [g x])) :
    ∀ (xs : List β) (l0 : List α),
      xs.foldl step (Except.ok l0) = Except.ok (l0 ++ xs.map g) := by
  intro xs
  induction xs with
  | nil => intro l0; simp
  | cons x t ih =>
    intro l0
    rw [List.foldl_cons, hstep, ih]
    simp

theorem rankCombine_none (schs : List Sch) (scores : List FitScore)
    (eligibleOnly : Bool) :
    rankCombine schs scores eligibleOnly none =
      Except.ok (((schs.zip scores).enum).map fun pr =>
        { sch := pr.2.1, fitScore := (pr.2.2).total, matchResult := none }) := by
  unfold rankCombine
  refine (foldl_ok_append _
    (fun pr : ℕ × (Sch × FitScore) =>
      ({ sch := pr.2.1, fitScore := (pr.2.2).total,
         matchResult := none } : Ranked)) ?_ ((schs.zip scores).enum) []).trans
    (by simp)
  intro l0 x
  cases eligibleOnly <;> rfl

/-- Witness for C8 at a concrete input: ranking a single scholarship with
a fixed score yields contiguous ranks and a sorted output. -/
theorem C8_rank_sorted_and_contiguous_witness :
    ((rankFinish ((([({} : Sch)].zip [c8Score]).enum).map fun pr =>
        { sch := pr.2.1, fitScore := (pr.2.2).total,
          matchResult := none })).map Ranked.rank =
      List.range' 1 (rankFinish ((([({} : Sch)].zip [c8Score]).enum).map fun pr =>
        { sch := pr.2.1, fitScore := (pr.2.2).total,
          matchResult := none })).length) ∧
    List.Sorted (fun a b : Ranked => b.fitScore ≤ a.fitScore)
      (rankFinish ((([({} : Sch)].zip [c8Score]).enum).map fun pr =>
        { sch := pr.2.1, fitScore := (pr.2.2).total, matchResult := none })) := by
  apply C8_rank_sorted_and_contiguous [{}] [c8Score] true none _ rfl
  unfold rankScholarships
  rw [rankCombine_none]

/-- C10: with eligible_only set but match_results omitted, no filtering
happens: the ranked output succeeds and contains exactly the scholarships
of the zipped input (all of them, up to the length of the score list),
each without an attached match result. -/
theorem C10_rank_no_filter_without_match_results (schs : List Sch)
    (scores : List FitScore) :
    ∃ out, rankScholarships schs scores true none = Except.ok out ∧
      out.length = min schs.length scores.length ∧
      (out.map Ranked.sch).Perm (((schs.zip scores).map Prod.fst)) ∧
      ∀ r ∈ out, r.matchResult = none := by
  refine ⟨rankFinish (((schs.zip scores).enum).map fun pr =>
    { sch := pr.2.1, fitScore := (pr.2.2).total, matchResult := none }), ?_, ?_, ?_, ?_⟩
  · unfold rankScholarships
    rw [rankCombine_none]
  · unfold rankFinish
    rw [List.length_map, List.enum_length, List.length_mergeSort]
    simp [List.length_zip]
  · have hp := rankFinish_perm (((schs.zip scores).enum).map fun pr =>
      ({ sch := pr.2.1, fitScore := (pr.2.2).total, matchResult := none } : Ranked))
    refine hp.trans ?_
    rw [List.map_map]
    have h1 : ((Ranked.sch ∘ fun pr : ℕ × (Sch × FitScore) =>
        ({ sch := pr.2.1, fitScore := (pr.2.2).total,
           matchResult := none } : Ranked))) =
        fun pr : ℕ × (Sch × FitScore) => pr.2.1 := rfl
    rw [h1]
    have h2 : ((schs.zip scores).enum).map (fun pr : ℕ × (Sch × FitScore) => pr.2.1) =
        (((schs.zip scores).enum).map Prod.snd).map Prod.fst := by
      rw [List.map_map]
      rfl
    rw [h2, List.enum_map_snd]
  · intro r hr
    unfold rankFinish at hr
    rw [List.mem_map] at hr
    obtain ⟨pr, hpr, hr⟩ := hr
    have hmem : pr.2 ∈ (((schs.zip scores).enum).map fun pr =>
        ({ sch := pr.2.1, fitScore := (pr.2.2).total,
           matchResult := none } : Ranked)).mergeSort rankLe := by
      have h5 := List.mem_map_of_mem Prod.snd hpr
      rwa [List.enum_map_snd] at h5
    rw [List.Perm.mem_iff (List.mergeSort_perm _ _)] at hmem
    rw [List.mem_map] at hmem
    obtain ⟨q, hq, hq2⟩ := hmem
    rw [← hr, ← hq2]

theorem commonRunLen_le_left (a b : Str) : commonRunLen a b ≤ a.length := by
  induction a generalizing b with
  | nil => cases b <;> simp [commonRunLen]
  | cons x xs ih =>
    cases b with
    | nil => simp [commonRunLen]
    | cons y ys =>
      simp only [commonRunLen]
      split
      · have := ih ys
        simp only [List.length_cons]
        omega
      · simp

theorem commonRunLen_le_right (a b : Str) : commonRunLen a b ≤ b.length := by
  induction a generalizing b with
  | nil => cases b <;> simp [commonRunLen]
  | cons x xs ih =>
    cases b with
    | nil => simp [commonRunLen]
    | cons y ys =>
      simp only [commonRunLen]
      split
      · have := ih ys
        simp only [List.length_cons]
        omega
      · simp

theorem longestMatch_le (a b : Str) :
    (longestMatch a b).2.2 + (longestMatch a b).1 ≤ a.length ∧
    (longestMatch a b).2.2 + (longestMatch a b).2.1 ≤ b.length := by
  unfold longestMatch
  apply List.foldlRecOn (motive := fun t : ℕ × ℕ × ℕ =>
    t.2.2 + t.1 ≤ a.length ∧ t.2.2 + t.2.1 ≤ b.length)
  · simp
  · intro acc hacc i hi
    apply List.foldlRecOn (motive := fun t : ℕ × ℕ × ℕ =>
      t.2.2 + t.1 ≤ a.length ∧ t.2.2 + t.2.1 ≤ b.length)
    · exact hacc
    · intro acc2 hacc2 j hj
      dsimp only
      split
      · have h1 := commonRunLen_le_left (a.drop i) (b.drop j)
        have h2 := commonRunLen_le_right (a.drop i) (b.drop j)
        rw [List.length_drop] at h1 h2
        have hia : i < a.length := List.mem_range.mp hi
        have hjb : j < b.length := List.mem_range.mp hj
        refine ⟨?_, ?_⟩
        · show commonRunLen (a.drop i) (b.drop j) + i ≤ a.length
          omega
        · show commonRunLen (a.drop i) (b.drop j) + j ≤ b.length
          omega
      · exact hacc2

theorem matchesTotal_le (fuel : ℕ) (a b : Str) :
    matchesTotal fuel a b ≤ min a.length b.length := by
  induction fuel generalizing a b with
  | zero => simp [matchesTotal]
  | succ f ih =>
    simp only [matchesTotal]
    split
    · omega
    · rename_i hk
      have hlm := longestMatch_le a b
      have h1 := ih (a.take (longestMatch a b).1) (b.take (longestMatch a b).2.1)
      have h2 := ih (a.drop ((longestMatch a b).1 + (longestMatch a b).2.2))
        (b.drop ((longestMatch a b).2.1 + (longestMatch a b).2.2))
      rw [List.length_take, List.length_take] at h1
      rw [List.length_drop, List.length_drop] at h2
      omega

theorem defaultThreshold_eq : defaultThreshold = 17/20 := by
  unfold defaultThreshold
  rw [Rat.mk'_eq_divInt]
  norm_num [Rat.divInt_eq_div]

/-- Counterexample to C5: the two titles of the spec do not normalize
identically (the suffix loop checks "scholarship" before "award" and never
revisits it), so their fingerprints differ, and their similarity is below
the default threshold, so they are not a duplicate pair. -/
theorem C5_counterexample_titles_not_identical :
    normalizeTitle c5TitleA = "women in stem".toList ∧
    normalizeTitle c5TitleB = "women in stem scholarship".toList ∧
    normalizeTitle c5TitleA ≠ normalizeTitle c5TitleB ∧
    titleFingerprint c5TitleA ≠ titleFingerprint c5TitleB ∧
    titleSimilarity c5TitleA c5TitleB < defaultThreshold := by
  refine ⟨by decide, by decide, by decide, by decide, ?_⟩
  have h0 : normalizeTitle c5TitleA = "women in stem".toList := by decide
  have h1 : normalizeTitle c5TitleB = "women in stem scholarship".toList := by decide
  have hstep : titleSimilarity c5TitleA c5TitleB =
      seqRatio "women in stem".toList "women in stem scholarship".toList := by
    simp only [titleSimilarity, h0, h1]
    rw [if_neg (by decide), if_neg (by decide)]
  rw [hstep]
  have hM := matchesTotal_le
    (("women in stem".toList : Str).length +
      ("women in stem scholarship".toList : Str).length + 1)
    "women in stem".toList "women in stem scholarship".toList
  have hMQ : (2 * (matchesTotal
      (("women in stem".toList : Str).length +
        ("women in stem scholarship".toList : Str).length + 1)
      "women in stem".toList "women in stem scholarship".toList : ℕ) : ℚ) ≤ 26 := by
    have h13 : min (("women in stem".toList : Str).length)
        (("women in stem scholarship".toList : Str).length) = 13 := by decide
    rw [h13] at hM
    have : (matchesTotal
      (("women in stem".toList : Str).length +
        ("women in stem scholarship".toList : Str).length + 1)
      "women in stem".toList "women in stem scholarship".toList : ℚ) ≤ 13 := by
      exact_mod_cast hM
    linarith
  simp only [seqRatio]
  rw [if_neg (by decide), defaultThreshold_eq]
  have hlen : ((("women in stem".toList : Str).length : ℚ) +
      (("women in stem scholarship".toList : Str).length : ℚ)) = 38 := by norm_num
  rw [hlen]
  rw [div_lt_iff₀ (by norm_num : (0:ℚ) < 38)]
  push_cast at hMQ
  linarith

set_option maxRecDepth 2000 in
/-- Amended C5: with the second title replaced by one the suffix loop does
reduce to the same normalized form ("Women in STEM Award"), the two titles
normalize identically, find_duplicates reports the pair with similarity 1,
and deduplicate keeps the record with the richer description and parsed
eligibility as canonical, marking the other a duplicate of it. -/
theorem C5_amended_duplicate_pipeline :
    normalizeTitle c5TitleA = normalizeTitle c5TitleB2 ∧
    titleFingerprint c5TitleA = titleFingerprint c5TitleB2 ∧
    findDuplicates defaultThreshold [c5RecPoor, c5RecRich] = [(0, 1, 1)] ∧
    completeness c5RecPoor = 1 ∧
    completeness c5RecRich = 26 ∧
    deduplicate defaultThreshold [c5RecPoor, c5RecRich] true =
      [{ c5RecPoor with isDuplicate := some true, duplicateOf := some c5TitleB2 },
       { c5RecRich with isDuplicate := some false, duplicateOf := none }] := by
  refine ⟨by decide, by decide, ?_, by decide, by decide, ?_⟩ <;> decide

theorem pget_set_ne (p : List ℕ) (a v x : ℕ) (h : x ≠ a) :
    pget (p.set a v) x = pget p x := by
  unfold pget
  rw [List.getD_eq_getElem?_getD, List.getD_eq_getElem?_getD,
    List.getElem?_set_ne fun he => h he.symm]

theorem pget_set_self (p : List ℕ) (a v : ℕ) (h : a < p.length) :
    pget (p.set a v) a = v := by
  unfold pget
  rw [List.getD_eq_getElem?_getD, List.getElem?_set_self h]
  rfl

theorem pget_range (n x : ℕ) : pget (List.range n) x = x := by
  unfold pget
  rcases Nat.lt_or_ge x n with h | h
  · rw [List.getD_eq_getElem?_getD, List.getElem?_range h]
    rfl
  · rw [List.getD_eq_getElem?_getD, List.getElem?_eq_none (by simpa using h)]
    rfl

theorem RC.head {p : List ℕ} {x : ℕ} {l : List ℕ} {r : ℕ} (h : RC p x l r) :
    ∃ t, l = x :: t := by
  cases h with
  | base _ _ => exact ⟨[], rfl⟩
  | step _ _ h2 => exact ⟨_, rfl⟩

theorem RC.unique {p : List ℕ} {x : ℕ} {l₁ l₂ : List ℕ} {r₁ r₂ : ℕ}
    (h₁ : RC p x l₁ r₁) (h₂ : RC p x l₂ r₂) : l₁ = l₂ ∧ r₁ = r₂ := by
  induction h₁ generalizing l₂ r₂ with
  | base a ha =>
    cases h₂ with
    | base _ _ => exact ⟨rfl, rfl⟩
    | step _ hne _ => exact absurd ha hne
  | step a hne ha ih =>
    cases h₂ with
    | base _ hb => exact absurd hb hne
    | step _ _ hb =>
      obtain ⟨hl, hr⟩ := ih hb
      exact ⟨by rw [hl], hr⟩

theorem RC.lastRoot {p : List ℕ} {x : ℕ} {l : List ℕ} {r : ℕ}
    (h : RC p x l r) : pget p r = r ∧ r ∈ l := by
  induction h with
  | base a ha => exact ⟨ha, List.mem_singleton_self a⟩
  | step a hne ha ih => exact ⟨ih.1, List.mem_cons_of_mem a ih.2⟩

theorem RC.suffix {p : List ℕ} {x : ℕ} {l : List ℕ} {r : ℕ}
    (h : RC p x l r) : ∀ y ∈ l, ∃ l₂, RC p y l₂ r ∧ l₂ <:+ l := by
  induction h with
  | base a ha =>
    intro y hy
    rw [List.mem_singleton] at hy
    subst hy
    exact ⟨[y], RC.base y ha, List.suffix_refl _⟩
  | step a hne ha ih =>
    intro y hy
    rcases List.mem_cons.mp hy with hy | hy
    · subst hy
      exact ⟨_, RC.step y hne ha, List.suffix_refl _⟩
    · obtain ⟨l₂, hrc, hsuf⟩ := ih y hy
      exact ⟨l₂, hrc, hsuf.trans (List.suffix_cons a _)⟩

theorem RC.nodup {p : List ℕ} {x : ℕ} {l : List ℕ} {r : ℕ}
    (h : RC p x l r) : l.Nodup := by
  induction h with
  | base a _ => exact List.nodup_singleton a
  | step a hne ha ih =>
    refine List.Nodup.cons ?_ ih
    intro hmem
    obtain ⟨l₂, hrc, hsuf⟩ := ha.suffix a hmem
    obtain ⟨hl, -⟩ := hrc.unique (RC.step a hne ha)
    have hlen := List.IsSuffix.length_le hsuf
    rw [hl] at hlen
    simp at hlen

theorem RC.rootChain {p : List ℕ} {x : ℕ} {l : List ℕ} {r : ℕ}
    (h : RC p x l r) : RC p r [r] r := RC.base r h.lastRoot.1

theorem RC.findAux {p : List ℕ} {x : ℕ} {l : List ℕ} {r : ℕ}
    (h : RC p x l r) : ∀ fuel, l.length ≤ fuel + 1 → ufFindAux fuel p x = r := by
  induction h with
  | base a ha =>
    intro fuel _
    cases fuel with
    | zero => rfl
    | succ f => simp [ufFindAux, ha]
  | step a hne ha ih =>
    intro fuel hfuel
    obtain ⟨t, ht⟩ := ha.head
    cases fuel with
    | zero =>
      rw [ht] at hfuel
      simp at hfuel
    | succ f =>
      simp only [ufFindAux]
      rw [if_neg hne]
      apply ih
      rw [ht] at hfuel ⊢
      simp at hfuel ⊢
      omega

theorem RC.inRange {n : ℕ} {p : List ℕ}
    (hrange : ∀ i, i < n → pget p i < n) {x : ℕ} {l : List ℕ} {r : ℕ}
    (h : RC p x l r) (hx : x < n) : ∀ y ∈ l, y < n := by
  induction h with
  | base a _ =>
    intro y hy
    rw [List.mem_singleton] at hy
    subst hy
    exact hx
  | step a hne ha ih =>
    intro y hy
    rcases List.mem_cons.mp hy with hy | hy
    · subst hy
      exact hx
    · exact ih (hrange a hx) y hy

theorem nodup_lt_length_le {l : List ℕ} {n : ℕ} (hnd : l.Nodup)
    (hlt : ∀ y ∈ l, y < n) : l.length ≤ n := by
  have hsub : l.toFinset ⊆ Finset.range n := by
    intro y hy
    rw [List.mem_toFinset] at hy
    exact Finset.mem_range.mpr (hlt y hy)
  have := Finset.card_le_card hsub
  rwa [List.toFinset_card_of_nodup hnd, Finset.card_range] at this

theorem ufFind_eq {n : ℕ} {p : List ℕ} (hinv : UFInv n p) {x : ℕ}
    (hx : x < n) {l : List ℕ} {r : ℕ} (h : RC p x l r) : ufFind p x = r := by
  obtain ⟨hlen, hrange, -⟩ := hinv
  have hnodes := RC.inRange hrange h hx
  have hbound : l.length ≤ n := nodup_lt_length_le h.nodup hnodes
  unfold ufFind
  exact h.findAux p.length (by omega)

theorem ufFind_facts {n : ℕ} {p : List ℕ} (hinv : UFInv n p) {x : ℕ}
    (hx : x < n) :
    ufFind p x < n ∧ pget p (ufFind p x) = ufFind p x ∧
      ufFind p (ufFind p x) = ufFind p x := by
  obtain ⟨l, r, h⟩ := hinv.2.2 x hx
  have heq := ufFind_eq hinv hx h
  have hr : r < n := RC.inRange hinv.2.1 h hx r h.lastRoot.2
  have hroot := h.lastRoot.1
  refine ⟨heq ▸ hr, by rw [heq]; exact hroot, ?_⟩
  rw [heq]
  exact ufFind_eq hinv hr h.rootChain

theorem RC.stable {p : List ℕ} {a v : ℕ} {x : ℕ} {l : List ℕ} {r : ℕ}
    (h : RC p x l r) (ha : a ∉ l) : RC (p.set a v) x l r := by
  induction h with
  | base b hb =>
    refine RC.base b ?_
    have hne : b ≠ a := fun he => ha (he ▸ List.mem_singleton_self b)
    rw [pget_set_ne p a v b hne]
    exact hb
  | step b hne hb ih =>
    have hba : b ≠ a := fun he => ha (he ▸ List.mem_cons_self b _)
    have hpg := pget_set_ne p a v b hba
    refine RC.step b ?_ ?_
    · rwa [hpg]
    · rw [hpg]
      exact ih fun hmem => ha (List.mem_cons_of_mem b hmem)

theorem RC.notMemOfRootNe {p : List ℕ} {x : ℕ} {l : List ℕ} {r a : ℕ}
    (h : RC p x l r) (haroot : pget p a = a) (hra : r ≠ a) : a ∉ l := by
  intro hmem
  obtain ⟨l₂, hrc, -⟩ := h.suffix a hmem
  obtain ⟨-, hreq⟩ := hrc.unique (RC.base a haroot)
  exact hra hreq

theorem RC.extend {p : List ℕ} {a b : ℕ} (hab : a ≠ b) (halen : a < p.length)
    (haroot : pget p a = a) (hbroot : pget p b = b) :
    ∀ {x : ℕ} {l : List ℕ} {r : ℕ}, RC p x l r → r = a →
      RC (p.set a b) x (l ++ [b]) b := by
  have hpa : pget (p.set a b) a = b := pget_set_self p a b halen
  have hpb : pget (p.set a b) b = b := by
    rw [pget_set_ne p a b b fun he => hab he.symm]
    exact hbroot
  intro x l r h
  induction h with
  | base c hc =>
    intro hca
    subst hca
    refine RC.step c ?_ ?_
    · rw [hpa]
      exact fun he => hab he.symm
    · rw [hpa]
      exact RC.base b hpb
  | step c hne hc ih =>
    intro hra
    have hca : c ≠ a := fun he => hne (he ▸ haroot)
    have hpg := pget_set_ne p a b c hca
    refine RC.step c ?_ ?_
    · rwa [hpg]
    · rw [hpg]
      exact ih hra

theorem UFInv.set {n : ℕ} {p : List ℕ} (hinv : UFInv n p) {a b : ℕ}
    (ha : a < n) (hb : b < n) (hab : a ≠ b) (haroot : pget p a = a)
    (hbroot : pget p b = b) : UFInv n (p.set a b) := by
  obtain ⟨hlen, hrange, hchain⟩ := hinv
  refine ⟨by rw [List.length_set, hlen], ?_, ?_⟩
  · intro i hi
    by_cases hia : i = a
    · rw [hia, pget_set_self p a b (by omega)]
      exact hb
    · rw [pget_set_ne p a b i hia]
      exact hrange i hi
  · intro x hx
    obtain ⟨l, r, h⟩ := hchain x hx
    by_cases hra : r = a
    · subst hra
      exact ⟨l ++ [b], b, RC.extend hab (by omega) haroot hbroot h rfl⟩
    · exact ⟨l, r, h.stable (h.notMemOfRootNe haroot hra)⟩

theorem UFInv.union {n : ℕ} {p : List ℕ} (hinv : UFInv n p)
    {comp : List ℕ} {x y : ℕ} (hx : x < n) (hy : y < n) :
    UFInv n (ufUnion comp p x y) := by
  obtain ⟨hxlt, hxroot, -⟩ := ufFind_facts hinv hx
  obtain ⟨hylt, hyroot, -⟩ := ufFind_facts hinv hy
  simp only [ufUnion]
  split
  · exact hinv
  · rename_i hne
    split
    · exact hinv.set hylt hxlt (fun he => hne he.symm) hyroot hxroot
    · exact hinv.set hxlt hylt hne hxroot hyroot

theorem UFInv.init (n : ℕ) : UFInv n (List.range n) := by
  refine ⟨List.length_range n, ?_, ?_⟩
  · intro i hi
    rwa [pget_range]
  · intro x hx
    exact ⟨[x], x, RC.base x (pget_range n x)⟩

theorem allPairs_mem {l : List ℕ} {x y : ℕ} (h : (x, y) ∈ allPairs l) :
    x ∈ l ∧ y ∈ l := by
  induction l with
  | nil => simp [allPairs] at h
  | cons a t ih =>
    simp only [allPairs, List.mem_append, List.mem_map] at h
    rcases h with ⟨z, hz, hzz⟩ | h
    · simp only [Prod.mk.injEq] at hzz
      obtain ⟨rfl, rfl⟩ := hzz
      exact ⟨List.mem_cons_self _ _, List.mem_cons_of_mem _ hz⟩
    · obtain ⟨h1, h2⟩ := ih h
      exact ⟨List.mem_cons_of_mem a h1, List.mem_cons_of_mem a h2⟩

theorem foldl_append_mem {α β : Type} {g : β → List α} {l : List β} {x : α} :
    ∀ {init : List α}, x ∈ l.foldl (fun acc b => acc ++ g b) init →
      x ∈ init ∨ ∃ b ∈ l, x ∈ g b := by
  induction l with
  | nil =>
    intro init h
    exact Or.inl h
  | cons a t ih =>
    intro init h
    rw [List.foldl_cons] at h
    rcases ih h with h | ⟨b, hb, hx⟩
    · rcases List.mem_append.mp h with h | h
      · exact Or.inl h
      · exact Or.inr ⟨a, List.mem_cons_self a t, h⟩
    · exact Or.inr ⟨b, List.mem_cons_of_mem a hb, hx⟩

theorem mem_enum_fst_lt {α : Type} {l : List α} {pr : ℕ × α}
    (h : pr ∈ l.enum) : pr.1 < l.length := by
  have hm := List.mem_map_of_mem Prod.fst h
  rw [List.enum_map_fst] at hm
  exact List.mem_range.mp hm

theorem buildBuckets_indices (schs : List Sch) :
    ∀ e ∈ buildBuckets schs, ∀ i ∈ e.2, i < schs.length := by
  unfold buildBuckets
  apply List.foldlRecOn (motive := fun acc : List (Str × List ℕ) =>
    ∀ e ∈ acc, ∀ i ∈ e.2, i < schs.length)
  · simp
  · intro acc hacc pr hpr
    have hlt : pr.1 < schs.length := mem_enum_fst_lt hpr
    intro e he i hi
    unfold addToBucket at he
    split at he
    · rw [List.mem_map] at he
      obtain ⟨e0, he0, heq⟩ := he
      by_cases hfp : (e0.1 == titleFingerprint ((pr.2).title.getD [])) = true
      · rw [if_pos hfp] at heq
        subst heq
        simp only [List.mem_append, List.mem_singleton] at hi
        rcases hi with hi | hi
        · exact hacc e0 he0 i hi
        · exact hi ▸ hlt
      · rw [if_neg hfp] at heq
        subst heq
        exact hacc e0 he0 i hi
    · rcases List.mem_append.mp he with he | he
      · exact hacc e he i hi
      · rw [List.mem_singleton] at he
        subst he
        rw [List.mem_singleton] at hi
        exact hi ▸ hlt

theorem bucketPairs_mem_lt {thr : ℚ} {schs : List Sch} {pr : ℕ × ℕ × ℚ}
    (h : pr ∈ bucketPairs thr schs) :
    pr.1 < schs.length ∧ pr.2.1 < schs.length := by
  unfold bucketPairs at h
  rcases foldl_append_mem h with h | ⟨e, he, hx⟩
  · simp at h
  · rw [List.mem_filterMap] at hx
    obtain ⟨ij, hij, hf⟩ := hx
    have hmem : (ij.1, ij.2) ∈ allPairs e.2 := by
      simpa using hij
    obtain ⟨h1, h2⟩ := allPairs_mem hmem
    have hf2 : (if titleSimilarity (titleAt schs ij.1) (titleAt schs ij.2) ≥ thr
        then some (ij.1, ij.2,
          titleSimilarity (titleAt schs ij.1) (titleAt schs ij.2))
        else none) = some pr := hf
    split at hf2
    · cases hf2
      exact ⟨buildBuckets_indices schs e he ij.1 h1,
        buildBuckets_indices schs e he ij.2 h2⟩
    · cases hf2

theorem filterMap_some_eq_map {α β : Type} (f : α → β) (l : List α)
    (g : α → Option β) (hg : ∀ a, g a = some (f a)) :
    l.filterMap g = l.map f := by
  induction l with
  | nil => rfl
  | cons a t ih => rw [List.filterMap_cons, hg a, List.map_cons, ih]

theorem some_of_ite_chain {α : Type} {c1 c2 c3 : Prop} [Decidable c1]
    [Decidable c2] [Decidable c3] {v r : α}
    (h : (if c1 then none else if c2 then none else
      if c3 then some v else none) = some r) : r = v := by
  split at h
  · cases h
  · split at h
    · cases h
    · split at h
      · exact (Option.some.inj h).symm
      · cases h

theorem fuzzyPairs_mem_lt {thr : ℚ} {schs : List Sch}
    {found : List (ℕ × ℕ × ℚ)} {pr : ℕ × ℕ × ℚ}
    (h : pr ∈ fuzzyPairs thr schs found) :
    pr.1 < schs.length ∧ pr.2.1 < schs.length := by
  simp only [fuzzyPairs] at h
  split at h
  · rw [List.mem_filterMap] at h
    obtain ⟨ij, hij, hf⟩ := h
    have hmem : (ij.1, ij.2) ∈ allPairs (List.range schs.length) := by
      simpa using hij
    obtain ⟨h1, h2⟩ := allPairs_mem hmem
    rw [List.mem_range] at h1 h2
    have hvr := some_of_ite_chain hf
    rw [hvr]
    exact ⟨h1, h2⟩
  · simp at h

theorem findDuplicates_mem_lt {thr : ℚ} {schs : List Sch} {pr : ℕ × ℕ × ℚ}
    (h : pr ∈ findDuplicates thr schs) :
    pr.1 < schs.length ∧ pr.2.1 < schs.length := by
  unfold findDuplicates at h
  rcases List.mem_append.mp h with h | h
  · exact bucketPairs_mem_lt h
  · exact fuzzyPairs_mem_lt h

theorem dedupParent_inv (thr : ℚ) (schs : List Sch) :
    UFInv schs.length (dedupParent thr schs) := by
  unfold dedupParent
  apply List.foldlRecOn (motive := fun p => UFInv schs.length p)
  · exact UFInv.init schs.length
  · intro p hp pr hpr
    obtain ⟨h1, h2⟩ := findDuplicates_mem_lt hpr
    exact hp.union h1 h2

theorem deduplicate_markOnly_eq (thr : ℚ) (schs : List Sch) :
    deduplicate thr schs true = (schs.enum).map fun pr =>
      if ufFind (dedupParent thr schs) pr.1 = pr.1 then
        { pr.2 with isDuplicate := some false, duplicateOf := none }
      else
        { pr.2 with
            isDuplicate := some true
            duplicateOf :=
              keyOf (schs.getD (ufFind (dedupParent thr schs) pr.1) {}) } := by
  unfold deduplicate
  split
  · rename_i hempty
    rw [List.isEmpty_iff] at hempty
    rw [hempty]
    rfl
  · exact filterMap_some_eq_map _ _ _ fun pr => rfl

theorem edge_symm {pairs : List (ℕ × ℕ × ℚ)} {x y : ℕ} (h : Edge pairs x y) :
    Edge pairs y x := by
  obtain ⟨p, hp, hor⟩ := h
  exact ⟨p, hp, hor.symm⟩

theorem conn_symm {pairs : List (ℕ × ℕ × ℚ)} {x y : ℕ} (h : Conn pairs x y) :
    Conn pairs y x :=
  Relation.ReflTransGen.symmetric (fun _ _ hh => edge_symm hh) h

theorem conn_single {pairs : List (ℕ × ℕ × ℚ)} {x y : ℕ}
    (h : Edge pairs x y) : Conn pairs x y :=
  Relation.ReflTransGen.single h

theorem conn_mono_snoc {L : List (ℕ × ℕ × ℚ)} {e : ℕ × ℕ × ℚ} {x y : ℕ}
    (h : Conn L x y) : Conn (L ++ [e]) x y :=
  Relation.ReflTransGen.mono
    (fun _ _ hh => by
      obtain ⟨p, hp, hor⟩ := hh
      exact ⟨p, List.mem_append_left _ hp, hor⟩) h

theorem conn_nil {x y : ℕ} : Conn [] x y ↔ x = y := by
  constructor
  · intro h
    induction h with
    | refl => rfl
    | tail _ he ih =>
      obtain ⟨p, hp, -⟩ := he
      exact absurd hp (List.not_mem_nil p)
  · rintro rfl
    exact Relation.ReflTransGen.refl

theorem edge_snoc {L : List (ℕ × ℕ × ℚ)} {e : ℕ × ℕ × ℚ} {x y : ℕ}
    (h : Edge (L ++ [e]) x y) :
    Edge L x y ∨ (x = e.1 ∧ y = e.2.1) ∨ (x = e.2.1 ∧ y = e.1) := by
  obtain ⟨p, hp, hor⟩ := h
  rcases List.mem_append.mp hp with hp | hp
  · exact Or.inl ⟨p, hp, hor⟩
  · rw [List.mem_singleton] at hp
    subst hp
    rcases hor with ⟨h1, h2⟩ | ⟨h1, h2⟩
    · exact Or.inr (Or.inl ⟨h1.symm, h2.symm⟩)
    · exact Or.inr (Or.inr ⟨h2.symm, h1.symm⟩)

theorem conn_snoc {L : List (ℕ × ℕ × ℚ)} {e : ℕ × ℕ × ℚ} {x y : ℕ} :
    Conn (L ++ [e]) x y ↔
      Conn L x y ∨ (Conn L x e.1 ∧ Conn L e.2.1 y) ∨
        (Conn L x e.2.1 ∧ Conn L e.1 y) := by
  constructor
  · intro h
    induction h with
    | refl => exact Or.inl Relation.ReflTransGen.refl
    | tail _ he ih =>
      rcases edge_snoc he with he | ⟨rfl, rfl⟩ | ⟨rfl, rfl⟩
      · rcases ih with h1 | ⟨h1, h2⟩ | ⟨h1, h2⟩
        · exact Or.inl (h1.tail he)
        · exact Or.inr (Or.inl ⟨h1, h2.tail he⟩)
        · exact Or.inr (Or.inr ⟨h1, h2.tail he⟩)
      · rcases ih with h1 | ⟨h1, h2⟩ | ⟨h1, h2⟩
        · exact Or.inr (Or.inl ⟨h1, Relation.ReflTransGen.refl⟩)
        · exact Or.inl (h1.trans (conn_symm h2))
        · exact Or.inl h1
      · rcases ih with h1 | ⟨h1, h2⟩ | ⟨h1, h2⟩
        · exact Or.inr (Or.inr ⟨h1, Relation.ReflTransGen.refl⟩)
        · exact Or.inl h1
        · exact Or.inl (h1.trans (conn_symm h2))
  · have hedge : Edge (L ++ [e]) e.1 e.2.1 :=
      ⟨e, List.mem_append_right _ (List.mem_singleton_self e), Or.inl ⟨rfl, rfl⟩⟩
    rintro (h | ⟨h1, h2⟩ | ⟨h1, h2⟩)
    · exact conn_mono_snoc h
    · exact ((conn_mono_snoc h1).trans (conn_single hedge)).trans
        (conn_mono_snoc h2)
    · exact ((conn_mono_snoc h1).trans (conn_single (edge_symm hedge))).trans
        (conn_mono_snoc h2)

theorem edge_lt {pairs : List (ℕ × ℕ × ℚ)} {n : ℕ}
    (hb : ∀ p ∈ pairs, p.1 < n ∧ p.2.1 < n) {x y : ℕ}
    (h : Edge pairs x y) : x < n ∧ y < n := by
  obtain ⟨p, hp, hor⟩ := h
  rcases hor with ⟨h1, h2⟩ | ⟨h1, h2⟩
  · exact ⟨h1 ▸ (hb p hp).1, h2 ▸ (hb p hp).2⟩
  · exact ⟨h2 ▸ (hb p hp).2, h1 ▸ (hb p hp).1⟩

theorem conn_lt {pairs : List (ℕ × ℕ × ℚ)} {n : ℕ}
    (hb : ∀ p ∈ pairs, p.1 < n ∧ p.2.1 < n) {i x : ℕ}
    (h : Conn pairs i x) : x = i ∨ x < n := by
  induction h with
  | refl => exact Or.inl rfl
  | tail _ he _ => exact Or.inr (edge_lt hb he).2

theorem not_mem_of_contains_eq_false {l : List ℕ} {a : ℕ}
    (h : l.contains a = false) : a ∉ l := by
  simp_all

theorem mem_of_not_contains_eq_false {l : List ℕ} {a : ℕ}
    (h : ¬ l.contains a = false) : a ∈ l := by
  by_cases hm : a ∈ l
  · exact hm
  · exact absurd (by simp_all) h

theorem nodup_snoc {l : List ℕ} {a : ℕ} (h : l.Nodup) (ha : a ∉ l) :
    (l ++ [a]).Nodup := by
  simp [List.nodup_append, h, ha]

theorem nstep_mem (x y : ℕ) (acc acc2 : List ℕ) (q : ℕ × ℕ × ℚ)
    (h2 : acc2 = if q.1 = x && !acc.contains q.2.1 then acc ++ [q.2.1] else acc) :
    ((y ∈ if q.2.1 = x && !acc2.contains q.1 then acc2 ++ [q.1] else acc2) ↔
      (y ∈ acc ∨ (q.1 = x ∧ y = q.2.1) ∨ (q.2.1 = x ∧ y = q.1))) := by
  subst h2
  by_cases hc1 : (q.1 = x && !acc.contains q.2.1) = true
  · rw [if_pos hc1]
    simp only [Bool.and_eq_true, decide_eq_true_eq, Bool.not_eq_true'] at hc1
    obtain ⟨hq1, hm1⟩ := hc1
    by_cases hc2 : (q.2.1 = x && !(acc ++ [q.2.1]).contains q.1) = true
    · rw [if_pos hc2]
      simp only [Bool.and_eq_true, decide_eq_true_eq, Bool.not_eq_true'] at hc2
      obtain ⟨hq2, -⟩ := hc2
      simp only [List.mem_append, List.mem_singleton]
      constructor
      · rintro ((h | h) | h)
        · exact Or.inl h
        · exact Or.inr (Or.inl ⟨hq1, h⟩)
        · exact Or.inr (Or.inr ⟨hq2, h⟩)
      · rintro (h | ⟨-, h⟩ | ⟨-, h⟩)
        · exact Or.inl (Or.inl h)
        · exact Or.inl (Or.inr h)
        · exact Or.inr h
    · rw [if_neg hc2]
      simp only [Bool.and_eq_true, decide_eq_true_eq, Bool.not_eq_true',
        not_and] at hc2
      simp only [List.mem_append, List.mem_singleton]
      constructor
      · rintro (h | h)
        · exact Or.inl h
        · exact Or.inr (Or.inl ⟨hq1, h⟩)
      · rintro (h | ⟨-, h⟩ | ⟨hx2, h⟩)
        · exact Or.inl h
        · exact Or.inr h
        · have hmem : q.1 ∈ acc ++ [q.2.1] :=
            mem_of_not_contains_eq_false (hc2 hx2)
          rcases List.mem_append.mp hmem with h3 | h3
          · exact Or.inl (h ▸ h3)
          · rw [List.mem_singleton] at h3
            exact Or.inr (h ▸ h3)
  · rw [if_neg hc1]
    simp only [Bool.and_eq_true, decide_eq_true_eq, Bool.not_eq_true',
      not_and] at hc1
    by_cases hc2 : (q.2.1 = x && !acc.contains q.1) = true
    · rw [if_pos hc2]
      simp only [Bool.and_eq_true, decide_eq_true_eq, Bool.not_eq_true'] at hc2
      obtain ⟨hq2, -⟩ := hc2
      simp only [List.mem_append, List.mem_singleton]
      constructor
      · rintro (h | h)
        · exact Or.inl h
        · exact Or.inr (Or.inr ⟨hq2, h⟩)
      · rintro (h | ⟨hx1, h⟩ | ⟨-, h⟩)
        · exact Or.inl h
        · have hmem : q.2.1 ∈ acc :=
            mem_of_not_contains_eq_false (hc1 hx1)
          exact Or.inl (h ▸ hmem)
        · exact Or.inr h
    · rw [if_neg hc2]
      simp only [Bool.and_eq_true, decide_eq_true_eq, Bool.not_eq_true',
        not_and] at hc2
      constructor
      · intro h
        exact Or.inl h
      · rintro (h | ⟨hx1, h⟩ | ⟨hx2, h⟩)
        · exact h
        · have hmem : q.2.1 ∈ acc :=
            mem_of_not_contains_eq_false (hc1 hx1)
          exact h ▸ hmem
        · have hmem : q.1 ∈ acc :=
            mem_of_not_contains_eq_false (hc2 hx2)
          exact h ▸ hmem

theorem neighbors_mem_aux (x : ℕ) (ps : List (ℕ × ℕ × ℚ)) :
    ∀ (acc : List ℕ) (y : ℕ),
      (y ∈ ps.foldl (fun acc p =>
        let acc := if p.1 = x && !acc.contains p.2.1 then acc ++ [p.2.1] else acc
        if p.2.1 = x && !acc.contains p.1 then acc ++ [p.1] else acc) acc ↔
      y ∈ acc ∨ ∃ p ∈ ps, (p.1 = x ∧ y = p.2.1) ∨ (p.2.1 = x ∧ y = p.1)) := by
  induction ps with
  | nil =>
    intro acc y
    simp
  | cons q t ih =>
    intro acc y
    rw [List.foldl_cons, ih]
    constructor
    · rintro (hy | ⟨p, hp, hor⟩)
      · rcases (nstep_mem x y acc _ q rfl).mp hy with h | h | h
        · exact Or.inl h
        · exact Or.inr ⟨q, List.mem_cons_self q t, Or.inl h⟩
        · exact Or.inr ⟨q, List.mem_cons_self q t, Or.inr h⟩
      · exact Or.inr ⟨p, List.mem_cons_of_mem q hp, hor⟩
    · rintro (hy | ⟨p, hp, hor⟩)
      · exact Or.inl ((nstep_mem x y acc _ q rfl).mpr (Or.inl hy))
      · rcases List.mem_cons.mp hp with rfl | hp
        · exact Or.inl ((nstep_mem x y acc _ p rfl).mpr (Or.inr hor))
        · exact Or.inr ⟨p, hp, hor⟩

theorem neighbors_mem (pairs : List (ℕ × ℕ × ℚ)) (x y : ℕ) :
    y ∈ neighbors pairs x ↔ Edge pairs x y := by
  unfold neighbors
  rw [neighbors_mem_aux]
  unfold Edge
  constructor
  · rintro (hy | ⟨p, hp, hor⟩)
    · exact absurd hy (List.not_mem_nil y)
    · rcases hor with ⟨h1, h2⟩ | ⟨h1, h2⟩
      · exact ⟨p, hp, Or.inl ⟨h1, h2.symm⟩⟩
      · exact ⟨p, hp, Or.inr ⟨h2.symm, h1⟩⟩
  · rintro ⟨p, hp, hor⟩
    rcases hor with ⟨h1, h2⟩ | ⟨h1, h2⟩
    · exact Or.inr ⟨p, hp, Or.inl ⟨h1, h2.symm⟩⟩
    · exact Or.inr ⟨p, hp, Or.inr ⟨h2, h1.symm⟩⟩

theorem nstep_nodup (x : ℕ) (acc : List ℕ) (q : ℕ × ℕ × ℚ) (h : acc.Nodup) :
    (let acc2 := if q.1 = x && !acc.contains q.2.1 then acc ++ [q.2.1] else acc
     if q.2.1 = x && !acc2.contains q.1 then acc2 ++ [q.1] else acc2).Nodup := by
  have h2 : (if q.1 = x && !acc.contains q.2.1 then
      acc ++ [q.2.1] else acc).Nodup := by
    by_cases hc1 : (q.1 = x && !acc.contains q.2.1) = true
    · rw [if_pos hc1]
      simp only [Bool.and_eq_true, Bool.not_eq_true'] at hc1
      exact nodup_snoc h (not_mem_of_contains_eq_false hc1.2)
    · rwa [if_neg hc1]
  show List.Nodup (if q.2.1 = x && !(if q.1 = x && !acc.contains q.2.1 then
      acc ++ [q.2.1] else acc).contains q.1 then
      (if q.1 = x && !acc.contains q.2.1 then acc ++ [q.2.1] else acc) ++ [q.1]
    else (if q.1 = x && !acc.contains q.2.1 then acc ++ [q.2.1] else acc))
  by_cases hc2 : (q.2.1 = x && !(if q.1 = x && !acc.contains q.2.1 then
      acc ++ [q.2.1] else acc).contains q.1) = true
  · rw [if_pos hc2]
    have hb := ((Bool.and_eq_true _ _).mp hc2).2
    rw [Bool.not_eq_true'] at hb
    exact nodup_snoc h2 (not_mem_of_contains_eq_false hb)
  · rwa [if_neg hc2]

theorem neighbors_nodup_aux (x : ℕ) (ps : List (ℕ × ℕ × ℚ)) :
    ∀ acc : List ℕ, acc.Nodup →
      (ps.foldl (fun acc p =>
        let acc := if p.1 = x && !acc.contains p.2.1 then acc ++ [p.2.1] else acc
        if p.2.1 = x && !acc.contains p.1 then acc ++ [p.1] else acc)
        acc).Nodup := by
  induction ps with
  | nil =>
    intro acc h
    exact h
  | cons q t ih =>
    intro acc h
    rw [List.foldl_cons]
    exact ih _ (nstep_nodup x acc q h)

theorem neighbors_nodup (pairs : List (ℕ × ℕ × ℚ)) (x : ℕ) :
    (neighbors pairs x).Nodup := by
  unfold neighbors
  exact neighbors_nodup_aux x pairs [] List.nodup_nil

theorem neighbors_length_le {pairs : List (ℕ × ℕ × ℚ)} {n : ℕ}
    (hb : ∀ p ∈ pairs, p.1 < n ∧ p.2.1 < n) (x : ℕ) :
    (neighbors pairs x).length ≤ n := by
  refine nodup_lt_length_le (neighbors_nodup pairs x) ?_
  intro y hy
  exact (edge_lt hb ((neighbors_mem pairs x y).mp hy)).2

theorem ufFind_set_root {n : ℕ} {p : List ℕ} (hinv : UFInv n p) {a b : ℕ}
    (ha : a < n) (hb : b < n) (hab : a ≠ b) (haroot : pget p a = a)
    (hbroot : pget p b = b) {x : ℕ} (hx : x < n) :
    ufFind (p.set a b) x = if ufFind p x = a then b else ufFind p x := by
  obtain ⟨l, r, hrc⟩ := hinv.2.2 x hx
  have hr := ufFind_eq hinv hx hrc
  have hinv2 : UFInv n (p.set a b) := hinv.set ha hb hab haroot hbroot
  by_cases hra : r = a
  · rw [hr, if_pos hra]
    have hrc2 : RC (p.set a b) x (l ++ [b]) b :=
      RC.extend hab (by rw [hinv.1]; exact ha) haroot hbroot hrc hra
    exact ufFind_eq hinv2 hx hrc2
  · rw [hr, if_neg hra]
    have hnm : a ∉ l := hrc.notMemOfRootNe haroot hra
    exact ufFind_eq hinv2 hx (hrc.stable hnm)

theorem ufFind_of_root {n : ℕ} {p : List ℕ} (hinv : UFInv n p) {x : ℕ}
    (hx : x < n) (hroot : pget p x = x) : ufFind p x = x :=
  ufFind_eq hinv hx (RC.base x hroot)

theorem ufConn_init (n : ℕ) : UFConn n [] (List.range n) := by
  refine ⟨UFInv.init n, ?_⟩
  intro x y hx hy
  rw [ufFind_of_root (UFInv.init n) hx (pget_range n x),
    ufFind_of_root (UFInv.init n) hy (pget_range n y), conn_nil]

theorem ufConn_set_aux {n : ℕ} {pairs : List (ℕ × ℕ × ℚ)} {p : List ℕ}
    (hinv : UFInv n p)
    (hiff : ∀ x y, x < n → y < n → (ufFind p x = ufFind p y ↔ Conn pairs x y))
    {e : ℕ × ℕ × ℚ} {u v : ℕ} (hu : u < n) (hv : v < n)
    (hne : ufFind p u ≠ ufFind p v)
    (hor : (u = e.1 ∧ v = e.2.1) ∨ (u = e.2.1 ∧ v = e.1)) :
    UFConn n (pairs ++ [e]) (p.set (ufFind p u) (ufFind p v)) := by
  obtain ⟨hrult, huroot, -⟩ := ufFind_facts hinv hu
  obtain ⟨hrvlt, hvroot, -⟩ := ufFind_facts hinv hv
  have hinv2 : UFInv n (p.set (ufFind p u) (ufFind p v)) :=
    hinv.set hrult hrvlt hne huroot hvroot
  refine ⟨hinv2, ?_⟩
  intro x y hx hy
  have he1 : e.1 < n := by rcases hor with ⟨rfl, rfl⟩ | ⟨rfl, rfl⟩ <;>
    first | exact hu | exact hv
  have he2 : e.2.1 < n := by rcases hor with ⟨rfl, rfl⟩ | ⟨rfl, rfl⟩ <;>
    first | exact hu | exact hv
  have hsym : (Conn pairs x e.1 ∧ Conn pairs e.2.1 y ∨
      Conn pairs x e.2.1 ∧ Conn pairs e.1 y) ↔
      (Conn pairs x u ∧ Conn pairs v y ∨
      Conn pairs x v ∧ Conn pairs u y) := by
    rcases hor with ⟨rfl, rfl⟩ | ⟨rfl, rfl⟩
    · exact Iff.rfl
    · exact or_comm
  rw [ufFind_set_root hinv hrult hrvlt hne huroot hvroot hx,
    ufFind_set_root hinv hrult hrvlt hne huroot hvroot hy,
    conn_snoc, hsym, ← hiff x y hx hy, ← hiff x u hx hu, ← hiff v y hv hy,
    ← hiff x v hx hv, ← hiff u y hu hy]
  by_cases hx1 : ufFind p x = ufFind p u <;>
    by_cases hy1 : ufFind p y = ufFind p u <;>
    simp [hx1, hy1] <;> omega

theorem ufConn_union {n : ℕ} {pairs : List (ℕ × ℕ × ℚ)} {p : List ℕ}
    (h : UFConn n pairs p) (comp : List ℕ) {e : ℕ × ℕ × ℚ}
    (h1 : e.1 < n) (h2 : e.2.1 < n) :
    UFConn n (pairs ++ [e]) (ufUnion comp p e.1 e.2.1) := by
  obtain ⟨hinv, hiff⟩ := h
  simp only [ufUnion]
  split
  · rename_i heq
    refine ⟨hinv, ?_⟩
    intro x y hx hy
    rw [hiff x y hx hy, conn_snoc]
    have hconnab : Conn pairs e.1 e.2.1 := (hiff e.1 e.2.1 h1 h2).mp heq
    constructor
    · exact Or.inl
    · rintro (hc | ⟨hc1, hc2⟩ | ⟨hc1, hc2⟩)
      · exact hc
      · exact (hc1.trans hconnab).trans hc2
      · exact (hc1.trans (conn_symm hconnab)).trans hc2
  · rename_i hne
    split
    · exact ufConn_set_aux hinv hiff h2 h1 (fun hh => hne hh.symm)
        (Or.inr ⟨rfl, rfl⟩)
    · exact ufConn_set_aux hinv hiff h1 h2 hne (Or.inl ⟨rfl, rfl⟩)

theorem ufConn_foldl {n : ℕ} (comp : List ℕ) :
    ∀ (M L : List (ℕ × ℕ × ℚ)) (p : List ℕ), UFConn n L p →
      (∀ e ∈ M, e.1 < n ∧ e.2.1 < n) →
      UFConn n (L ++ M)
        (M.foldl (fun q e => ufUnion comp q e.1 e.2.1) p) := by
  intro M
  induction M with
  | nil =>
    intro L p h _
    simpa using h
  | cons e M ih =>
    intro L p h hb
    rw [List.foldl_cons]
    have h2 := ufConn_union h comp (hb e (List.mem_cons_self e M)).1
      (hb e (List.mem_cons_self e M)).2
    have h3 := ih (L ++ [e]) _ h2
      (fun e' he' => hb e' (List.mem_cons_of_mem e he'))
    rwa [List.append_assoc, List.singleton_append] at h3

theorem dedupParent_conn (thr : ℚ) (schs : List Sch) :
    UFConn schs.length (findDuplicates thr schs) (dedupParent thr schs) := by
  have h := ufConn_foldl (n := schs.length) (schs.map completeness)
    (findDuplicates thr schs) [] (List.range schs.length)
    (ufConn_init schs.length) (fun e he => findDuplicates_mem_lt he)
  rw [List.nil_append] at h
  exact h

theorem conn_to_root {thr : ℚ} {schs : List Sch} {x : ℕ}
    (hx : x < schs.length) :
    ufFind (dedupParent thr schs) x < schs.length ∧
      Conn (findDuplicates thr schs) x (ufFind (dedupParent thr schs) x) := by
  obtain ⟨hinv, hiff⟩ := dedupParent_conn thr schs
  obtain ⟨hlt, -, hidem⟩ := ufFind_facts hinv hx
  exact ⟨hlt, (hiff x (ufFind (dedupParent thr schs) x) hx hlt).mp hidem.symm⟩

theorem mem_of_contains_eq_true {l : List ℕ} {a : ℕ}
    (h : l.contains a = true) : a ∈ l := by
  simp_all

theorem contains_eq_false_of_not_mem {l : List ℕ} {a : ℕ} (h : a ∉ l) :
    l.contains a = false := by
  simp_all

theorem unvisitedCard_snoc {n : ℕ} {visited : List ℕ} {node : ℕ}
    (hn : node < n) (hnv : node ∉ visited) :
    unvisitedCard n visited = unvisitedCard n (visited ++ [node]) + 1 := by
  unfold unvisitedCard
  have hmem : node ∈ (Finset.range n).filter (fun x => x ∉ visited) := by
    simp [Finset.mem_filter, Finset.mem_range, hn, hnv]
  have hfe : (Finset.range n).filter (fun x => x ∉ visited ++ [node]) =
      ((Finset.range n).filter (fun x => x ∉ visited)).erase node := by
    ext y
    simp only [Finset.mem_filter, Finset.mem_erase, Finset.mem_range,
      List.mem_append, List.mem_singleton]
    constructor
    · rintro ⟨h1, h2⟩
      exact ⟨fun he => h2 (Or.inr he), h1, fun hm => h2 (Or.inl hm)⟩
    · rintro ⟨h1, h2, h3⟩
      refine ⟨h2, fun hm => ?_⟩
      rcases hm with hm | hm
      · exact h3 hm
      · exact h1 hm
  rw [hfe, Finset.card_erase_of_mem hmem,
    Nat.sub_add_cancel (Finset.card_pos.mpr ⟨node, hmem⟩)]

theorem bfsAux_delta (pairs : List (ℕ × ℕ × ℚ)) :
    ∀ (fuel : ℕ) (Q visited G : List ℕ),
      ∃ d, (bfsAux pairs fuel Q visited G).1 = visited ++ d ∧
        (bfsAux pairs fuel Q visited G).2 = G ++ d := by
  intro fuel
  induction fuel with
  | zero =>
    intro Q visited G
    exact ⟨[], by simp [bfsAux]⟩
  | succ f ih =>
    intro Q visited G
    cases Q with
    | nil => exact ⟨[], by simp [bfsAux]⟩
    | cons node queue =>
      by_cases hv : visited.contains node = true
      · have hred : bfsAux pairs (f + 1) (node :: queue) visited G =
            bfsAux pairs f queue visited G := by
          simp only [bfsAux]
          rw [if_pos hv]
        rw [hred]
        exact ih queue visited G
      · have hred : bfsAux pairs (f + 1) (node :: queue) visited G =
            bfsAux pairs f
              (queue ++ (neighbors pairs node).filter
                (fun nb => !(visited ++ [node]).contains nb))
              (visited ++ [node]) (G ++ [node]) := by
          simp only [bfsAux]
          rw [if_neg hv]
        rw [hred]
        obtain ⟨d, h1, h2⟩ := ih
          (queue ++ (neighbors pairs node).filter
            (fun nb => !(visited ++ [node]).contains nb))
          (visited ++ [node]) (G ++ [node])
        refine ⟨node :: d, ?_, ?_⟩
        · rw [h1, List.append_assoc, List.singleton_append]
        · rw [h2, List.append_assoc, List.singleton_append]

theorem bfs_closed_complete {pairs : List (ℕ × ℕ × ℚ)} {i0 : ℕ}
    {G : List ℕ} (hGC : ∀ g ∈ G, Conn pairs i0 g)
    (hcov : ∀ u ∈ G, ∀ v, Edge pairs u v → v ∈ G)
    (hstart : i0 ∈ G) : ∀ x, x ∈ G ↔ Conn pairs i0 x := by
  intro x
  constructor
  · exact hGC x
  · intro h
    induction h with
    | refl => exact hstart
    | tail _ he ih => exact hcov _ ih _ he

theorem bfsAux_main {n : ℕ} {pairs : List (ℕ × ℕ × ℚ)}
    (hb : ∀ p ∈ pairs, p.1 < n ∧ p.2.1 < n) {i0 : ℕ} (hi0 : i0 < n)
    (V : List ℕ) (hV : ∀ x ∈ V, ∀ y, Conn pairs x y → y ∈ V)
    (hi0V : i0 ∉ V) :
    ∀ (fuel : ℕ) (Q G : List ℕ),
      (∀ q ∈ Q, Conn pairs i0 q) →
      (∀ g ∈ G, Conn pairs i0 g) →
      G.Nodup →
      (∀ g ∈ G, g ∉ V) →
      (∀ u ∈ G, ∀ v, Edge pairs u v → v ∈ G ∨ v ∈ Q) →
      (i0 ∈ G ∨ i0 ∈ Q) →
      bfsPot n Q (V ++ G) ≤ fuel →
      (∀ x, x ∈ (bfsAux pairs fuel Q (V ++ G) G).2 ↔ Conn pairs i0 x) ∧
        (bfsAux pairs fuel Q (V ++ G) G).2.Nodup := by
  intro fuel
  induction fuel with
  | zero =>
    intro Q G hQC hGC hGN hGV hcov hstart hfuel
    have hQ : Q = [] := by
      cases Q with
      | nil => rfl
      | cons a t =>
        unfold bfsPot at hfuel
        rw [List.length_cons] at hfuel
        omega
    subst hQ
    have hres : bfsAux pairs 0 [] (V ++ G) G = (V ++ G, G) := by
      simp [bfsAux]
    rw [hres]
    refine ⟨?_, hGN⟩
    exact bfs_closed_complete hGC
      (fun u hu v he => (hcov u hu v he).resolve_right (List.not_mem_nil v))
      (hstart.resolve_right (List.not_mem_nil i0))
  | succ f ih =>
    intro Q G hQC hGC hGN hGV hcov hstart hfuel
    cases Q with
    | nil =>
      have hres : bfsAux pairs (f + 1) [] (V ++ G) G = (V ++ G, G) := by
        simp [bfsAux]
      rw [hres]
      refine ⟨?_, hGN⟩
      exact bfs_closed_complete hGC
        (fun u hu v he => (hcov u hu v he).resolve_right (List.not_mem_nil v))
        (hstart.resolve_right (List.not_mem_nil i0))
    | cons node queue =>
      have hnodeC : Conn pairs i0 node := hQC node (List.mem_cons_self node queue)
      have hnoden : node < n := by
        rcases conn_lt hb hnodeC with heq | h
        · exact heq ▸ hi0
        · exact h
      by_cases hv : (V ++ G).contains node = true
      · have hnodeG : node ∈ G := by
          rcases List.mem_append.mp (mem_of_contains_eq_true hv) with hmV | hmG
          · exact absurd (hV node hmV i0 (conn_symm hnodeC)) hi0V
          · exact hmG
        have hred : bfsAux pairs (f + 1) (node :: queue) (V ++ G) G =
            bfsAux pairs f queue (V ++ G) G := by
          simp only [bfsAux]
          rw [if_pos hv]
        rw [hred]
        refine ih queue G
          (fun q hq => hQC q (List.mem_cons_of_mem node hq))
          hGC hGN hGV ?_ ?_ ?_
        · intro u hu v he
          rcases hcov u hu v he with h | h
          · exact Or.inl h
          · rcases List.mem_cons.mp h with rfl | h
            · exact Or.inl hnodeG
            · exact Or.inr h
        · rcases hstart with h | h
          · exact Or.inl h
          · rcases List.mem_cons.mp h with rfl | h
            · exact Or.inl hnodeG
            · exact Or.inr h
        · unfold bfsPot at hfuel ⊢
          rw [List.length_cons] at hfuel
          omega
      · have hnv : node ∉ V ++ G := by
          refine not_mem_of_contains_eq_false ?_
          cases hcon : (V ++ G).contains node with
          | false => rfl
          | true => exact absurd hcon hv
        have hnodeV : node ∉ V := fun hm => hnv (List.mem_append_left _ hm)
        have hnodeG : node ∉ G := fun hm => hnv (List.mem_append_right _ hm)
        have hred : bfsAux pairs (f + 1) (node :: queue) (V ++ G) G =
            bfsAux pairs f
              (queue ++ (neighbors pairs node).filter
                (fun nb => !((V ++ G) ++ [node]).contains nb))
              ((V ++ G) ++ [node]) (G ++ [node]) := by
          simp only [bfsAux]
          rw [if_neg hv]
        rw [hred, List.append_assoc V G [node]]
        refine ih _ (G ++ [node]) ?_ ?_ (nodup_snoc hGN hnodeG) ?_ ?_ ?_ ?_
        · intro q hq
          rcases List.mem_append.mp hq with hq | hq
          · exact hQC q (List.mem_cons_of_mem node hq)
          · have hnb := (List.mem_filter.mp hq).1
            exact hnodeC.tail ((neighbors_mem pairs node q).mp hnb)
        · intro g hg
          rcases List.mem_append.mp hg with hg | hg
          · exact hGC g hg
          · rw [List.mem_singleton] at hg
            exact hg ▸ hnodeC
        · intro g hg
          rcases List.mem_append.mp hg with hg | hg
          · exact hGV g hg
          · rw [List.mem_singleton] at hg
            exact hg ▸ hnodeV
        · intro u hu v he
          rcases List.mem_append.mp hu with hu | hu
          · rcases hcov u hu v he with h | h
            · exact Or.inl (List.mem_append_left _ h)
            · rcases List.mem_cons.mp h with rfl | h
              · exact Or.inl (List.mem_append_right _ (List.mem_singleton_self v))
              · exact Or.inr (List.mem_append_left _ h)
          · rw [List.mem_singleton] at hu
            rw [hu] at he
            have hvC : Conn pairs i0 v := hnodeC.tail he
            by_cases hvm : v ∈ V ++ (G ++ [node])
            · rcases List.mem_append.mp hvm with hvm | hvm
              · exact absurd (hV v hvm i0 (conn_symm hvC)) hi0V
              · exact Or.inl hvm
            · refine Or.inr (List.mem_append_right _ ?_)
              refine List.mem_filter.mpr ⟨(neighbors_mem pairs node v).mpr he, ?_⟩
              rw [contains_eq_false_of_not_mem hvm]
              rfl
        · rcases hstart with h | h
          · exact Or.inl (List.mem_append_left _ h)
          · rcases List.mem_cons.mp h with rfl | h
            · exact Or.inl (List.mem_append_right _ (List.mem_singleton_self i0))
            · exact Or.inr (List.mem_append_left _ h)
        · have hcard := unvisitedCard_snoc (n := n) hnoden hnv
          have hflen : ((neighbors pairs node).filter
              (fun nb => !(V ++ (G ++ [node])).contains nb)).length ≤ n :=
            le_trans (List.length_filter_le _ _) (neighbors_length_le hb node)
          unfold bfsPot at hfuel ⊢
          rw [List.length_cons] at hfuel
          rw [List.length_append, ← List.append_assoc]
          rw [hcard] at hfuel
          have hmul : (unvisitedCard n ((V ++ G) ++ [node]) + 1) * (n + 1) =
              unvisitedCard n ((V ++ G) ++ [node]) * (n + 1) + (n + 1) := by
            rw [Nat.succ_mul]
          rw [← List.append_assoc] at hflen
          omega

theorem unvisitedCard_le (n : ℕ) (l : List ℕ) : unvisitedCard n l ≤ n := by
  unfold unvisitedCard
  exact le_trans (Finset.card_filter_le _ _) (le_of_eq (Finset.card_range n))

theorem getDuplicateGroups_spec (thr : ℚ) (schs : List Sch) :
    List.Pairwise (fun g1 g2 => ∀ x, x ∈ g1 → x ∉ g2)
      (getDuplicateGroups thr schs) ∧
    ∀ g ∈ getDuplicateGroups thr schs, g.Nodup ∧ 1 < g.length ∧
      ∃ i0, i0 < schs.length ∧
        ∀ x, (x ∈ g ↔ Conn (findDuplicates thr schs) i0 x) := by
  have hb : ∀ p ∈ findDuplicates thr schs,
      p.1 < schs.length ∧ p.2.1 < schs.length :=
    fun p hp => findDuplicates_mem_lt hp
  have hdg : getDuplicateGroups thr schs =
      ((List.range schs.length).foldl (fun st i =>
        if st.1.contains i then st
        else
          let res := bfsAux (findDuplicates thr schs)
            (schs.length * schs.length + schs.length + 1) [i] st.1 []
          if res.2.length > 1 then
            (res.1, st.2 ++ [res.2.mergeSort fun a b => decide (a ≤ b)])
          else (res.1, st.2)) (([] : List ℕ), ([] : List (List ℕ)))).2 := rfl
  suffices hmain :
      (∀ x ∈ ((List.range schs.length).foldl (fun st i =>
        if st.1.contains i then st
        else
          let res := bfsAux (findDuplicates thr schs)
            (schs.length * schs.length + schs.length + 1) [i] st.1 []
          if res.2.length > 1 then
            (res.1, st.2 ++ [res.2.mergeSort fun a b => decide (a ≤ b)])
          else (res.1, st.2)) (([] : List ℕ), ([] : List (List ℕ)))).1,
        ∀ y, Conn (findDuplicates thr schs) x y →
          y ∈ ((List.range schs.length).foldl (fun st i =>
            if st.1.contains i then st
            else
              let res := bfsAux (findDuplicates thr schs)
                (schs.length * schs.length + schs.length + 1) [i] st.1 []
              if res.2.length > 1 then
                (res.1, st.2 ++ [res.2.mergeSort fun a b => decide (a ≤ b)])
              else (res.1, st.2)) (([] : List ℕ), ([] : List (List ℕ)))).1) ∧
      List.Pairwise (fun g1 g2 => ∀ x, x ∈ g1 → x ∉ g2)
        ((List.range schs.length).foldl (fun st i =>
          if st.1.contains i then st
          else
            let res := bfsAux (findDuplicates thr schs)
              (schs.length * schs.length + schs.length + 1) [i] st.1 []
            if res.2.length > 1 then
              (res.1, st.2 ++ [res.2.mergeSort fun a b => decide (a ≤ b)])
            else (res.1, st.2)) (([] : List ℕ), ([] : List (List ℕ)))).2 ∧
      ∀ g ∈ ((List.range schs.length).foldl (fun st i =>
        if st.1.contains i then st
        else
          let res := bfsAux (findDuplicates thr schs)
            (schs.length * schs.length + schs.length + 1) [i] st.1 []
          if res.2.length > 1 then
            (res.1, st.2 ++ [res.2.mergeSort fun a b => decide (a ≤ b)])
          else (res.1, st.2)) (([] : List ℕ), ([] : List (List ℕ)))).2,
        g.Nodup ∧ 1 < g.length ∧
        (∀ x ∈ g, x ∈ ((List.range schs.length).foldl (fun st i =>
          if st.1.contains i then st
          else
            let res := bfsAux (findDuplicates thr schs)
              (schs.length * schs.length + schs.length + 1) [i] st.1 []
            if res.2.length > 1 then
              (res.1, st.2 ++ [res.2.mergeSort fun a b => decide (a ≤ b)])
            else (res.1, st.2)) (([] : List ℕ), ([] : List (List ℕ)))).1) ∧
        ∃ i0, i0 < schs.length ∧
          ∀ x, (x ∈ g ↔ Conn (findDuplicates thr schs) i0 x) by
    rw [hdg]
    exact ⟨hmain.2.1, fun g hg => ⟨(hmain.2.2 g hg).1, (hmain.2.2 g hg).2.1,
      (hmain.2.2 g hg).2.2.2⟩⟩
  apply List.foldlRecOn (motive := fun st : List ℕ × List (List ℕ) =>
    (∀ x ∈ st.1, ∀ y, Conn (findDuplicates thr schs) x y → y ∈ st.1) ∧
    List.Pairwise (fun g1 g2 => ∀ x, x ∈ g1 → x ∉ g2) st.2 ∧
    ∀ g ∈ st.2, g.Nodup ∧ 1 < g.length ∧ (∀ x ∈ g, x ∈ st.1) ∧
      ∃ i0, i0 < schs.length ∧
        ∀ x, (x ∈ g ↔ Conn (findDuplicates thr schs) i0 x))
  · refine ⟨?_, List.Pairwise.nil, ?_⟩
    · intro x hx
      exact absurd hx (List.not_mem_nil x)
    · intro g hg
      exact absurd hg (List.not_mem_nil g)
  · intro st hst i hi
    rw [List.mem_range] at hi
    obtain ⟨hclosed, hpw, hgrp⟩ := hst
    by_cases hc : st.1.contains i = true
    · rw [if_pos hc]
      exact ⟨hclosed, hpw, hgrp⟩
    · rw [if_neg hc]
      have hiV : i ∉ st.1 := by
        refine not_mem_of_contains_eq_false ?_
        cases hcon : st.1.contains i with
        | false => rfl
        | true => exact absurd hcon hc
      have hfuel : bfsPot schs.length [i] (st.1 ++ []) ≤
          schs.length * schs.length + schs.length + 1 := by
        unfold bfsPot
        have hcardle := unvisitedCard_le schs.length (st.1 ++ [])
        have hmul := Nat.mul_le_mul_right (schs.length + 1) hcardle
        have hms : schs.length * (schs.length + 1) =
            schs.length * schs.length + schs.length := by ring
        rw [List.length_singleton]
        omega
      have hm := bfsAux_main hb hi st.1 hclosed hiV
        (schs.length * schs.length + schs.length + 1) [i] []
        (fun q hq => by
          rw [List.mem_singleton] at hq
          exact hq ▸ Relation.ReflTransGen.refl)
        (fun g hg => absurd hg (List.not_mem_nil g))
        List.nodup_nil
        (fun g hg => absurd hg (List.not_mem_nil g))
        (fun u hu => absurd hu (List.not_mem_nil u))
        (Or.inr (List.mem_singleton_self i))
        hfuel
      rw [List.append_nil] at hm
      obtain ⟨hcomp, hnodup⟩ := hm
      obtain ⟨d, hd1, hd2⟩ := bfsAux_delta (findDuplicates thr schs)
        (schs.length * schs.length + schs.length + 1) [i] st.1 []
      rw [List.nil_append] at hd2
      rw [← hd2] at hd1
      rw [show (let res := bfsAux (findDuplicates thr schs)
                  (schs.length * schs.length + schs.length + 1) [i] st.1 [];
                if res.2.length > 1 then
                  (res.1, st.2 ++ [res.2.mergeSort fun a b => decide (a ≤ b)])
                else (res.1, st.2)) =
          (if (bfsAux (findDuplicates thr schs)
                (schs.length * schs.length + schs.length + 1) [i] st.1
                []).2.length > 1 then
            ((bfsAux (findDuplicates thr schs)
                (schs.length * schs.length + schs.length + 1) [i] st.1 []).1,
              st.2 ++ [(bfsAux (findDuplicates thr schs)
                (schs.length * schs.length + schs.length + 1) [i] st.1
                []).2.mergeSort fun a b => decide (a ≤ b)])
          else ((bfsAux (findDuplicates thr schs)
                (schs.length * schs.length + schs.length + 1) [i] st.1 []).1,
              st.2)) from rfl]
      have hdisj : ∀ x ∈ (bfsAux (findDuplicates thr schs)
          (schs.length * schs.length + schs.length + 1) [i] st.1 []).2,
          x ∉ st.1 := by
        intro x hx hxv
        exact hiV (hclosed x hxv i (conn_symm ((hcomp x).mp hx)))
      have hclosed2 : ∀ x ∈ (bfsAux (findDuplicates thr schs)
          (schs.length * schs.length + schs.length + 1) [i] st.1 []).1,
          ∀ y, Conn (findDuplicates thr schs) x y →
            y ∈ (bfsAux (findDuplicates thr schs)
              (schs.length * schs.length + schs.length + 1) [i] st.1 []).1 := by
        intro x hx y hxy
        rw [hd1] at hx ⊢
        rcases List.mem_append.mp hx with hx | hx
        · exact List.mem_append_left _ (hclosed x hx y hxy)
        · exact List.mem_append_right _
            ((hcomp y).mpr (((hcomp x).mp hx).trans hxy))
      split
      · rename_i hlen
        refine ⟨hclosed2, ?_, ?_⟩
        · rw [List.pairwise_append]
          refine ⟨hpw, List.pairwise_singleton _ _, ?_⟩
          intro g hg g2 hg2 x hxg
          rw [List.mem_singleton] at hg2
          subst hg2
          intro hxg2
          rw [List.Perm.mem_iff (List.mergeSort_perm _ _)] at hxg2
          exact hdisj x hxg2 ((hgrp g hg).2.2.1 x hxg)
        · intro g hg
          rcases List.mem_append.mp hg with hg | hg
          · obtain ⟨h1, h2, h3, h4⟩ := hgrp g hg
            refine ⟨h1, h2, ?_, h4⟩
            intro x hx
            rw [hd1]
            exact List.mem_append_left _ (h3 x hx)
          · rw [List.mem_singleton] at hg
            subst hg
            have hperm := List.mergeSort_perm (bfsAux (findDuplicates thr schs)
              (schs.length * schs.length + schs.length + 1) [i] st.1 []).2
              (fun a b => decide (a ≤ b))
            refine ⟨hperm.nodup_iff.mpr hnodup, ?_, ?_, ?_⟩
            · rw [hperm.length_eq]
              exact hlen
            · intro x hx
              rw [hd1]
              exact List.mem_append_right _ (hperm.mem_iff.mp hx)
            · exact ⟨i, hi, fun x => (hperm.mem_iff).trans (hcomp x)⟩
      · refine ⟨hclosed2, hpw, ?_⟩
        intro g hg
        obtain ⟨h1, h2, h3, h4⟩ := hgrp g hg
        refine ⟨h1, h2, ?_, h4⟩
        intro x hx
        rw [hd1]
        exact List.mem_append_left _ (h3 x hx)

theorem deduplicate_getD (thr : ℚ) (schs : List Sch) {i : ℕ}
    (hi : i < schs.length) :
    (deduplicate thr schs true).getD i {} =
      if ufFind (dedupParent thr schs) i = i then
        { schs.getD i {} with isDuplicate := some false, duplicateOf := none }
      else
        { schs.getD i {} with
            isDuplicate := some true
            duplicateOf :=
              keyOf (schs.getD (ufFind (dedupParent thr schs) i) {}) } := by
  rw [deduplicate_markOnly_eq, List.getD_eq_getElem?_getD, List.getElem?_map,
    List.getElem?_enum, List.getElem?_eq_getElem hi,
    List.getD_eq_getElem schs {} hi]
  rfl

theorem deduplicate_length (thr : ℚ) (schs : List Sch) :
    (deduplicate thr schs true).length = schs.length := by
  rw [deduplicate_markOnly_eq, List.length_map, List.enum_length]

/-- C6: the duplicate groups produced by get_duplicate_groups partition the
records (no index appears in two groups, nor twice in one group), the
marked output of deduplicate with mark_only=true has one entry per input,
and every duplicate group contains exactly one record with
is_duplicate=false — its canonical member — while every other member of
the group has is_duplicate=true with duplicate_of equal to the key of that
canonical record. -/
theorem C6_duplicate_groups_partition_canonical (thr : ℚ) (schs : List Sch) :
    (deduplicate thr schs true).length = schs.length ∧
    List.Pairwise (fun g1 g2 => ∀ x, x ∈ g1 → x ∉ g2)
      (getDuplicateGroups thr schs) ∧
    (∀ g ∈ getDuplicateGroups thr schs, g.Nodup) ∧
    ∀ g ∈ getDuplicateGroups thr schs, ∃ r ∈ g,
      ((deduplicate thr schs true).getD r {}).isDuplicate = some false ∧
      (∀ x ∈ g,
        ((deduplicate thr schs true).getD x {}).isDuplicate = some false →
          x = r) ∧
      (∀ x ∈ g, x ≠ r →
        ((deduplicate thr schs true).getD x {}).isDuplicate = some true ∧
        ((deduplicate thr schs true).getD x {}).duplicateOf =
          keyOf ((deduplicate thr schs true).getD r {})) := by
  obtain ⟨hpw, hgr⟩ := getDuplicateGroups_spec thr schs
  refine ⟨deduplicate_length thr schs, hpw, fun g hg => (hgr g hg).1, ?_⟩
  intro g hg
  obtain ⟨hnd, hlen, i0, hi0, hmem⟩ := hgr g hg
  obtain ⟨hinv, hiff⟩ := dedupParent_conn thr schs
  have hb : ∀ p ∈ findDuplicates thr schs,
      p.1 < schs.length ∧ p.2.1 < schs.length :=
    fun p hp => findDuplicates_mem_lt hp
  obtain ⟨hrlt, hconn⟩ := @conn_to_root thr schs i0 hi0
  have hrg : ufFind (dedupParent thr schs) i0 ∈ g := (hmem _).mpr hconn
  have hrr : ufFind (dedupParent thr schs) (ufFind (dedupParent thr schs) i0) =
      ufFind (dedupParent thr schs) i0 := (ufFind_facts hinv hi0).2.2
  have hxfacts : ∀ x ∈ g, x < schs.length ∧
      ufFind (dedupParent thr schs) x = ufFind (dedupParent thr schs) i0 := by
    intro x hx
    have hcx : Conn (findDuplicates thr schs) i0 x := (hmem x).mp hx
    have hxlt : x < schs.length := by
      rcases conn_lt hb hcx with heq | h
      · exact heq ▸ hi0
      · exact h
    exact ⟨hxlt, (hiff x i0 hxlt hi0).mpr (conn_symm hcx)⟩
  refine ⟨ufFind (dedupParent thr schs) i0, hrg, ?_, ?_, ?_⟩
  · rw [deduplicate_getD thr schs hrlt, if_pos hrr]
  · intro x hx hfalse
    obtain ⟨hxlt, hxroot⟩ := hxfacts x hx
    by_cases hxr : ufFind (dedupParent thr schs) x = x
    · rw [← hxr, hxroot]
    · rw [deduplicate_getD thr schs hxlt, if_neg hxr] at hfalse
      simp at hfalse
  · intro x hx hxne
    obtain ⟨hxlt, hxroot⟩ := hxfacts x hx
    have hxnotroot : ¬ ufFind (dedupParent thr schs) x = x := by
      intro hroot
      exact hxne (by rw [← hroot, hxroot])
    rw [deduplicate_getD thr schs hxlt, if_neg hxnotroot,
      deduplicate_getD thr schs hrlt, if_pos hrr]
    refine ⟨rfl, ?_⟩
    rw [hxroot]
    rfl

set_option maxRecDepth 4000 in
theorem C6_duplicate_groups_partition_canonical_witness :
    getDuplicateGroups defaultThreshold [c5RecPoor, c5RecRich] = [[0, 1]] ∧
    ∃ r ∈ [0, 1],
      ((deduplicate defaultThreshold [c5RecPoor, c5RecRich] true).getD r
        {}).isDuplicate = some false ∧
      (∀ x ∈ [0, 1],
        ((deduplicate defaultThreshold [c5RecPoor, c5RecRich] true).getD x
          {}).isDuplicate = some false → x = r) ∧
      (∀ x ∈ [0, 1], x ≠ r →
        ((deduplicate defaultThreshold [c5RecPoor, c5RecRich] true).getD x
          {}).isDuplicate = some true ∧
        ((deduplicate defaultThreshold [c5RecPoor, c5RecRich] true).getD x
          {}).duplicateOf =
          keyOf ((deduplicate defaultThreshold [c5RecPoor, c5RecRich]
            true).getD r {})) := by
  have hkey : getDuplicateGroups defaultThreshold [c5RecPoor, c5RecRich] =
      [((bfsAux (findDuplicates defaultThreshold [c5RecPoor, c5RecRich])
          ([c5RecPoor, c5RecRich].length * [c5RecPoor, c5RecRich].length +
            [c5RecPoor, c5RecRich].length + 1) [0] [] []).2).mergeSort
        fun a b => decide (a ≤ b)] := rfl
  have hbfs : (bfsAux (findDuplicates defaultThreshold [c5RecPoor, c5RecRich])
      ([c5RecPoor, c5RecRich].length * [c5RecPoor, c5RecRich].length +
        [c5RecPoor, c5RecRich].length + 1) [0] [] []).2 = [0, 1] := by decide
  have hms : ([0, 1] : List ℕ).mergeSort (fun a b => decide (a ≤ b)) =
      [0, 1] := List.mergeSort_of_sorted (by decide)
  have hgroups : getDuplicateGroups defaultThreshold [c5RecPoor, c5RecRich] =
      [[0, 1]] := by
    rw [hkey, hbfs, hms]
  refine ⟨hgroups, ?_⟩
  have h := C6_duplicate_groups_partition_canonical defaultThreshold
    [c5RecPoor, c5RecRich]
  exact h.2.2.2 [0, 1] (by rw [hgroups]; exact List.mem_singleton_self _)

theorem digitChar_isDigit (k : ℕ) : (digitChar k).isDigit = true := by
  unfold digitChar
  have h : k % 10 < 10 := Nat.mod_lt _ (by norm_num)
  set j := k % 10 with hj
  interval_cases j <;> decide

theorem pySpace_digitChar (k : ℕ) : pySpace (digitChar k) = false := by
  unfold digitChar
  have h : k % 10 < 10 := Nat.mod_lt _ (by norm_num)
  set j := k % 10 with hj
  interval_cases j <;> decide

theorem dv_digitChar (k : ℕ) : dv (digitChar k) = k % 10 := by
  unfold digitChar
  have h : k % 10 < 10 := Nat.mod_lt _ (by norm_num)
  set j := k % 10 with hj
  interval_cases j <;> decide

theorem dropWhile_self_of_head {p : Char → Bool} {l : Str}
    (h : ∀ c t, l = c :: t → p c = false) : l.dropWhile p = l := by
  cases l with
  | nil => rfl
  | cons c t =>
    rw [List.dropWhile_cons, h c t rfl]
    simp

theorem pyStrip_of_no_space {s : Str} (h : ∀ c ∈ s, pySpace c = false) :
    pyStrip s = s := by
  have h1 : s.dropWhile pySpace = s :=
    dropWhile_self_of_head
      (fun c t hl => h c (by rw [hl]; exact List.mem_cons_self c t))
  have h2 : s.reverse.dropWhile pySpace = s.reverse :=
    dropWhile_self_of_head
      (fun c t hl => h c (List.mem_reverse.mp
        (by rw [hl]; exact List.mem_cons_self c t)))
  unfold pyStrip
  rw [h1, h2, List.reverse_reverse]

theorem dropWhile_head_false {p : Char → Bool} :
    ∀ {l c t}, List.dropWhile p l = c :: t → p c = false := by
  intro l
  induction l with
  | nil =>
    intro c t h
    cases h
  | cons a l ih =>
    intro c t h
    rw [List.dropWhile_cons] at h
    by_cases hp : p a = true
    · rw [if_pos hp] at h
      exact ih h
    · rw [if_neg hp] at h
      cases h
      exact Bool.eq_false_iff.mpr hp

theorem dropWhile_getLast {p : Char → Bool} :
    ∀ {l : Str}, List.dropWhile p l ≠ [] →
      (List.dropWhile p l).getLast? = l.getLast? := by
  intro l
  induction l with
  | nil =>
    intro h
    rfl
  | cons a l ih =>
    intro h
    by_cases hp : p a = true
    · rw [List.dropWhile_cons, if_pos hp] at h ⊢
      rw [ih h]
      cases hl : l with
      | nil =>
        rw [hl] at h
        simp at h
      | cons b t =>
        rw [List.getLast?_cons_cons]
    · rw [List.dropWhile_cons, if_neg hp]

theorem pyStrip_idem (s : Str) : pyStrip (pyStrip s) = pyStrip s := by
  cases hv : pyStrip s with
  | nil => rfl
  | cons c t =>
    have hhead : pySpace c = false := by
      unfold pyStrip at hv
      have hne : ((s.dropWhile pySpace).reverse.dropWhile pySpace) ≠ [] := by
        intro hnil
        rw [hnil] at hv
        cases hv
      have hl := dropWhile_getLast (p := pySpace)
        (l := (s.dropWhile pySpace).reverse) hne
      have hcgl : ((s.dropWhile pySpace).reverse.dropWhile
          pySpace).reverse.head? = some c := by
        rw [hv]
        rfl
      rw [List.head?_reverse, hl, List.getLast?_reverse] at hcgl
      cases hd : s.dropWhile pySpace with
      | nil =>
        rw [hd] at hcgl
        cases hcgl
      | cons d dt =>
        rw [hd] at hcgl
        rw [List.head?_cons] at hcgl
        cases hcgl
        exact dropWhile_head_false hd
    have hlast : ∀ d, (c :: t).getLast? = some d → pySpace d = false := by
      intro d hgl
      unfold pyStrip at hv
      rw [← hv, List.getLast?_reverse] at hgl
      cases hdw : (s.dropWhile pySpace).reverse.dropWhile pySpace with
      | nil =>
        rw [hdw] at hgl
        cases hgl
      | cons e et =>
        rw [hdw, List.head?_cons] at hgl
        cases hgl
        exact dropWhile_head_false hdw
    unfold pyStrip
    have h1 : (c :: t).dropWhile pySpace = c :: t := by
      rw [List.dropWhile_cons, hhead]
      simp
    rw [h1]
    have h2 : (c :: t).reverse.dropWhile pySpace = (c :: t).reverse := by
      refine dropWhile_self_of_head ?_
      intro d dt hrev
      refine hlast d ?_
      rw [← List.head?_reverse, hrev, List.head?_cons]
    rw [h2, List.reverse_reverse]

theorem ordSuffixes_contains_dash (b : Char) :
    ordSuffixes.contains ['-', b] = false := rfl

theorem ordStripAux_id :
    ∀ (f : ℕ) (s : Str), s.length ≤ f →
      (∀ c ∈ s, c.isDigit = true ∨ c = '-') → ordStripAux f s = s := by
  intro f
  induction f with
  | zero =>
    intro s hlen _
    rw [List.length_eq_zero.mp (Nat.le_zero.mp hlen)]
    rfl
  | succ f ih =>
    intro s hlen hch
    cases s with
    | nil => rfl
    | cons c rest =>
      unfold ordStripAux
      by_cases hc : c.isDigit = true
      · rw [if_pos hc]
        have hsplit := List.takeWhile_append_dropWhile (p := Char.isDigit)
          (l := c :: rest)
        have hlen2 : ((c :: rest).dropWhile Char.isDigit).length ≤ f := by
          have hdw : (c :: rest).dropWhile Char.isDigit =
              rest.dropWhile Char.isDigit := by
            rw [List.dropWhile_cons, if_pos hc]
          have hrle := (List.dropWhile_suffix (l := rest)
            Char.isDigit).length_le
          rw [List.length_cons] at hlen
          rw [hdw]
          omega
        have hch2 : ∀ d ∈ (c :: rest).dropWhile Char.isDigit,
            d.isDigit = true ∨ d = '-' := by
          intro d hd
          exact hch d ((List.dropWhile_suffix Char.isDigit).subset hd)
        cases hafter : (c :: rest).dropWhile Char.isDigit with
        | nil =>
          show List.takeWhile Char.isDigit (c :: rest) ++
            ordStripAux f [] = c :: rest
          rw [ih [] (by simp) (by intro d hd; cases hd), List.append_nil]
          rw [hafter, List.append_nil] at hsplit
          exact hsplit
        | cons a after2 =>
          rw [hafter] at hch2 hsplit
          have hadash : a = '-' := by
            have hnd := dropWhile_head_false (p := Char.isDigit) hafter
            rcases hch2 a (List.mem_cons_self a after2) with h | h
            · rw [h] at hnd
              cases hnd
            · exact h
          rw [hafter] at hlen2
          cases after2 with
          | nil =>
            show List.takeWhile Char.isDigit (c :: rest) ++
              ordStripAux f [a] = c :: rest
            rw [ih [a] hlen2 (by
              intro d hd
              rw [List.mem_singleton] at hd
              exact hd ▸ hch2 a (List.mem_cons_self a []))]
            exact hsplit
          | cons b after3 =>
            show (if ordSuffixes.contains [a, b] = true then
                List.takeWhile Char.isDigit (c :: rest) ++ ordStripAux f after3
              else List.takeWhile Char.isDigit (c :: rest) ++
                ordStripAux f (a :: b :: after3)) = c :: rest
            rw [hadash, ordSuffixes_contains_dash, if_neg (by simp), ← hadash]
            rw [ih (a :: b :: after3) hlen2 (fun d hd => hch2 d hd)]
            exact hsplit
      · have hdash : c = '-' := by
          rcases hch c (List.mem_cons_self c rest) with h | h
          · exact absurd h hc
          · exact h
        rw [if_neg hc]
        rw [ih rest (by rw [List.length_cons] at hlen; omega)
          (fun d hd => hch d (List.mem_cons_of_mem c hd))]

theorem firstSome_mem {α : Type} :
    ∀ {l : List (Option α)} {x : α}, firstSome l = some x → some x ∈ l := by
  intro l
  induction l with
  | nil =>
    intro x h
    cases h
  | cons o t ih =>
    intro x h
    cases o with
    | some v =>
      rw [show firstSome (some v :: t) = some v from rfl] at h
      exact h ▸ List.mem_cons_self _ _
    | none =>
      rw [show firstSome (none :: t) = firstSome t from rfl] at h
      exact List.mem_cons_of_mem _ (ih h)

theorem applyTok_lit (acc : YMDAcc) (c : Char) (rest : Str) :
    applyTok acc (.lit c) (c :: rest) = [(acc, rest)] := by
  show (if c = c then [(acc, rest)] else []) = [(acc, rest)]
  rw [if_pos rfl]

theorem applyTok_y4 (acc : YMDAcc) (y : ℕ) (hy : y ≤ 9999) (rest : Str) :
    applyTok acc .y4 (pad4 y ++ rest) = [({ acc with y := some y }, rest)] := by
  have hcons : pad4 y ++ rest = digitChar (y / 1000) :: digitChar (y / 100) ::
      digitChar (y / 10) :: digitChar y :: rest := rfl
  have harith : dv (digitChar (y / 1000)) * 1000 +
      dv (digitChar (y / 100)) * 100 + dv (digitChar (y / 10)) * 10 +
      dv (digitChar y) = y := by
    rw [dv_digitChar, dv_digitChar, dv_digitChar, dv_digitChar]
    omega
  rw [hcons]
  simp only [applyTok]
  rw [if_pos (by simp [digitChar_isDigit]), harith]

theorem applyTok_mon_head (acc : YMDAcc) (m : ℕ) (h1 : 1 ≤ m) (h2 : m ≤ 12)
    (rest : Str) :
    ∃ tl, applyTok acc .mon (pad2 m ++ rest) =
      ({ acc with m := some m }, rest) :: tl := by
  interval_cases m <;>
    exact ⟨_, by simp +decide [pad2, applyTok, dv_digitChar] <;> rfl⟩

theorem applyTok_day_head (acc : YMDAcc) (d : ℕ) (h1 : 1 ≤ d) (h2 : d ≤ 31)
    (rest : Str) :
    ∃ tl, applyTok acc .day (pad2 d ++ rest) =
      ({ acc with d := some d }, rest) :: tl := by
  interval_cases d <;>
    exact ⟨_, by simp +decide [pad2, applyTok, dv_digitChar] <;> rfl⟩

theorem runToks_cons_head {t : DTok} {ts : List DTok} {acc acc2 : YMDAcc}
    {cs rest : Str} {tl : List (YMDAcc × Str)} {v : YMDAcc}
    (happ : applyTok acc t cs = (acc2, rest) :: tl)
    (hcont : runToks ts acc2 rest = some v) :
    runToks (t :: ts) acc cs = some v := by
  show firstSome ((applyTok acc t cs).map fun pr => runToks ts pr.1 pr.2) =
    some v
  rw [happ]
  simp only [List.map_cons]
  rw [hcont]
  rfl

theorem runToks_isoFmt (y m d : ℕ) (hy : y ≤ 9999) (hm1 : 1 ≤ m)
    (hm2 : m ≤ 12) (hd1 : 1 ≤ d) (hd2 : d ≤ 31) :
    runToks fmtISO {} (isoFmt y m d) =
      some { y := some y, m := some m, d := some d } := by
  obtain ⟨tlm, hmon⟩ := applyTok_mon_head { y := some y } m hm1 hm2
    ('-' :: pad2 d)
  obtain ⟨tld, hday⟩ := applyTok_day_head { y := some y, m := some m } d
    hd1 hd2 []
  rw [List.append_nil] at hday
  refine runToks_cons_head
    (applyTok_y4 {} y hy ('-' :: (pad2 m ++ ('-' :: pad2 d)))) ?_
  refine runToks_cons_head
    (applyTok_lit { y := some y } '-' (pad2 m ++ ('-' :: pad2 d))) ?_
  refine runToks_cons_head hmon ?_
  refine runToks_cons_head
    (applyTok_lit { y := some y, m := some m } '-' (pad2 d)) ?_
  refine runToks_cons_head hday ?_
  rfl

theorem validYmd_bounds {y m d : ℕ} (h : validYmd y m d = true) :
    1 ≤ y ∧ y ≤ 9999 ∧ 1 ≤ m ∧ m ≤ 12 ∧ 1 ≤ d ∧ d ≤ 31 := by
  have hdm : daysInMonth y m ≤ 31 := by
    unfold daysInMonth
    split
    · split <;> omega
    · split <;> omega
  unfold validYmd at h
  simp only [Bool.and_eq_true, decide_eq_true_eq] at h
  refine ⟨?_, ?_, ?_, ?_, ?_, ?_⟩ <;> omega

theorem tryFormat_valid {fmt : List DTok} {ds : Str} {y m d : ℕ}
    (h : tryFormat fmt ds = some (y, m, d)) : validYmd y m d = true := by
  unfold tryFormat at h
  split at h
  · cases h
  · rename_i acc heq
    have h2 : (if validYmd (acc.y.getD 1900) (acc.m.getD 1) (acc.d.getD 1)
        then some (acc.y.getD 1900, acc.m.getD 1, acc.d.getD 1)
        else none) = some (y, m, d) := h
    split at h2
    · rename_i hv
      cases h2
      exact hv
    · cases h2

theorem dateFallback_valid {ds : Str} {y m d : ℕ}
    (h : dateFallback ds = some (y, m, d)) : validYmd y m d = true := by
  unfold dateFallback at h
  split at h
  · cases h
  · split at h
    · cases h
    · split at h
      · rename_i hv
        cases h
        exact hv
      · cases h

theorem normDateCore_valid {ds : Str} {y m d : ℕ}
    (h : normDateCore ds = some (y, m, d)) : validYmd y m d = true := by
  unfold normDateCore at h
  split at h
  · rename_i r heq
    cases h
    have hm := firstSome_mem heq
    rw [List.mem_map] at hm
    obtain ⟨fmt, hfmt, hval⟩ := hm
    exact tryFormat_valid hval
  · exact dateFallback_valid h

theorem normDateCore_isoFmt {y m d : ℕ} (hv : validYmd y m d = true) :
    normDateCore (isoFmt y m d) = some (y, m, d) := by
  obtain ⟨h1, h2, h3, h4, h5, h6⟩ := validYmd_bounds hv
  have hrun := runToks_isoFmt y m d h2 h3 h4 h5 h6
  have htf : tryFormat fmtISO (isoFmt y m d) = some (y, m, d) := by
    unfold tryFormat
    rw [hrun]
    show (if validYmd ((some y).getD 1900) ((some m).getD 1) ((some d).getD 1)
        then some ((some y).getD 1900, (some m).getD 1, (some d).getD 1)
        else none) = some (y, m, d)
    simp only [Option.getD_some]
    rw [if_pos hv]
  have hfs : firstSome (dateFormats.map fun f => tryFormat f (isoFmt y m d)) =
      some (y, m, d) := by
    rw [show dateFormats = fmtISO :: dateFormats.tail from rfl,
      List.map_cons, htf]
    rfl
  unfold normDateCore
  rw [hfs]

theorem isoFmt_chars {y m d : ℕ} :
    ∀ c ∈ isoFmt y m d, (c.isDigit = true ∨ c = '-') ∧ pySpace c = false := by
  intro c hc
  simp only [isoFmt, pad4, pad2, List.mem_append, List.mem_cons,
    List.not_mem_nil, or_false, or_assoc] at hc
  rcases hc with rfl | rfl | rfl | rfl | rfl | rfl | rfl | rfl | rfl | rfl <;>
    first
      | exact ⟨Or.inl (digitChar_isDigit _), pySpace_digitChar _⟩
      | exact ⟨Or.inr rfl, by decide⟩

theorem isoFmt_ne_nil (y m d : ℕ) : (isoFmt y m d).isEmpty = false := rfl

theorem ordStrip_isoFmt (y m d : ℕ) :
    ordStrip (isoFmt y m d) = isoFmt y m d :=
  ordStripAux_id _ _ le_rfl (fun c hc => (isoFmt_chars c hc).1)

theorem normalizeDate_roundtrip {ds out : Str}
    (h : normalizeDate (some ds) = some out) :
    out.isEmpty = false ∧ normalizeDate (some out) = some out := by
  simp only [normalizeDate] at h
  split at h
  · cases h
  · rw [Option.map_eq_some'] at h
    obtain ⟨⟨y, m, d⟩, hcore, hout⟩ := h
    have hv := normDateCore_valid hcore
    subst hout
    refine ⟨isoFmt_ne_nil y m d, ?_⟩
    show (if (isoFmt y m d).isEmpty = true then none
      else (normDateCore (ordStrip (pyStrip (isoFmt y m d)))).map
        fun pr => isoFmt pr.1 pr.2.1 pr.2.2) = some (isoFmt y m d)
    rw [if_neg (by rw [isoFmt_ne_nil]; exact Bool.false_ne_true),
      pyStrip_of_no_space (fun c hc => (isoFmt_chars c hc).2),
      ordStrip_isoFmt, normDateCore_isoFmt hv]
    rfl

theorem not_prefix_https (u : Str) :
    "//".toList.isPrefixOf ("https:".toList ++ u) = false := rfl

theorem normalizeScholarship_comp (r : Sch) :
    normalizeScholarship r =
      nsUrl (nsTitle (nsAmount (nsDeadline (nsSource r)))) := rfl

theorem nsSource_eq (r : Sch) :
    nsSource r = { r with
      source := (match r.source with
        | some s => some (normalizeSourceName s)
        | none => none) } := by
  obtain ⟨idf, titlef, descf, sourcef, urlf, appf, amountf, amountRawf,
    aminf, amaxf, deadlinef, rawEf, parsedEf, efff, compf, isDupf, dupOff⟩ := r
  rcases sourcef with _ | s <;> rfl

theorem nsDeadline_eq (r : Sch) :
    nsDeadline r = { r with
      deadline := (match r.deadline with
        | some ds => if ds.isEmpty then some ds else normalizeDate (some ds)
        | none => none) } := by
  obtain ⟨idf, titlef, descf, sourcef, urlf, appf, amountf, amountRawf,
    aminf, amaxf, deadlinef, rawEf, parsedEf, efff, compf, isDupf, dupOff⟩ := r
  rcases deadlinef with _ | ds
  · rfl
  · dsimp only [nsDeadline]
    split <;> rfl

theorem nsAmount_eq (r : Sch) :
    nsAmount r = { r with
      amountMin := (match r.amount with
        | some a => if a.isEmpty then r.amountMin
            else (normalizeAmount (some a)).1
        | none => r.amountMin)
      amountMax := (match r.amount with
        | some a => if a.isEmpty then r.amountMax
            else (normalizeAmount (some a)).2
        | none => r.amountMax)
      amountRaw := (match r.amount with
        | some a => if a.isEmpty then r.amountRaw else some a
        | none => r.amountRaw) } := by
  obtain ⟨idf, titlef, descf, sourcef, urlf, appf, amountf, amountRawf,
    aminf, amaxf, deadlinef, rawEf, parsedEf, efff, compf, isDupf, dupOff⟩ := r
  rcases amountf with _ | a
  · rfl
  · dsimp only [nsAmount]
    split <;> rfl

theorem nsTitle_eq (r : Sch) :
    nsTitle r = { r with
      title := (match r.title with
        | some t => if t.isEmpty then some t else some (pyStrip t)
        | none => none) } := by
  obtain ⟨idf, titlef, descf, sourcef, urlf, appf, amountf, amountRawf,
    aminf, amaxf, deadlinef, rawEf, parsedEf, efff, compf, isDupf, dupOff⟩ := r
  rcases titlef with _ | t
  · rfl
  · dsimp only [nsTitle]
    split <;> rfl

theorem nsUrl_eq (r : Sch) :
    nsUrl r = { r with
      url := (match r.url with
        | some u => if u.isEmpty then some u
            else if "//".toList.isPrefixOf u then
              some ("https:".toList ++ u)
            else some u
        | none => none) } := by
  obtain ⟨idf, titlef, descf, sourcef, urlf, appf, amountf, amountRawf,
    aminf, amaxf, deadlinef, rawEf, parsedEf, efff, compf, isDupf, dupOff⟩ := r
  rcases urlf with _ | u
  · rfl
  · dsimp only [nsUrl]
    split
    · rfl
    · split <;> rfl

theorem normalizeScholarship_fields (r : Sch) :
    normalizeScholarship r = { r with
      source := (match r.source with
        | some s => some (normalizeSourceName s)
        | none => none)
      deadline := (match r.deadline with
        | some ds => if ds.isEmpty then some ds else normalizeDate (some ds)
        | none => none)
      amountMin := (match r.amount with
        | some a => if a.isEmpty then r.amountMin
            else (normalizeAmount (some a)).1
        | none => r.amountMin)
      amountMax := (match r.amount with
        | some a => if a.isEmpty then r.amountMax
            else (normalizeAmount (some a)).2
        | none => r.amountMax)
      amountRaw := (match r.amount with
        | some a => if a.isEmpty then r.amountRaw else some a
        | none => r.amountRaw)
      title := (match r.title with
        | some t => if t.isEmpty then some t else some (pyStrip t)
        | none => none)
      url := (match r.url with
        | some u => if u.isEmpty then some u
            else if "//".toList.isPrefixOf u then
              some ("https:".toList ++ u)
            else some u
        | none => none) } := by
  obtain ⟨idf, titlef, descf, sourcef, urlf, appf, amountf, amountRawf,
    aminf, amaxf, deadlinef, rawEf, parsedEf, efff, compf, isDupf, dupOff⟩ := r
  rw [normalizeScholarship_comp, nsSource_eq, nsDeadline_eq, nsAmount_eq,
    nsTitle_eq, nsUrl_eq]

/-- C9 counterexample: normalize_scholarship is not idempotent, because
normalize_source_name is not: the source "Scholarships_Com" is not an
alias-map key, so the first pass lowercases it to "scholarships_com",
which IS a key, so a second pass maps it to "scholarships.com". -/
theorem C9_counterexample_source_alias_not_idempotent :
    normalizeScholarship (normalizeScholarship
      { source := some "Scholarships_Com".toList }) ≠
      normalizeScholarship { source := some "Scholarships_Com".toList } := by
  decide

/-- C9 (amended): normalize_scholarship is idempotent on every record
whose source, if present, has a stable normalized name (that is,
normalize_source_name applied to its normalization is a no-op; in
particular every record with no source, and every record whose source is
an alias-map key or value).  All other steps re-apply cleanly: a
normalized deadline is an ISO string that reparses to itself via the
first strptime format, amounts are recomputed from the unchanged raw
amount, a stripped title strips to itself, and an upgraded URL no longer
starts with "//". -/
theorem C9_amended_normalize_scholarship_idempotent (r : Sch)
    (hsrc : ∀ s, r.source = some s →
      normalizeSourceName (normalizeSourceName s) = normalizeSourceName s) :
    normalizeScholarship (normalizeScholarship r) = normalizeScholarship r := by
  obtain ⟨idf, titlef, descf, sourcef, urlf, appf, amountf, amountRawf,
    aminf, amaxf, deadlinef, rawEf, parsedEf, efff, compf, isDupf, dupOff⟩ := r
  rw [normalizeScholarship_fields, normalizeScholarship_fields]
  dsimp only
  simp only [Sch.mk.injEq, eq_self_iff_true, true_and, and_true]
  refine ⟨?_, ?_, ?_, ?_, ?_, ?_, ?_⟩
  · -- title
    rcases titlef with _ | t
    · rfl
    · by_cases ht : t.isEmpty = true
      · simp only [if_pos ht]
      · simp only [if_neg ht]
        by_cases hpt : (pyStrip t).isEmpty = true
        · simp only [if_pos hpt]
        · simp only [if_neg hpt, pyStrip_idem]
  · -- source
    rcases sourcef with _ | s
    · rfl
    · exact congrArg some (hsrc s rfl)
  · -- url
    rcases urlf with _ | u
    · rfl
    · by_cases hu : u.isEmpty = true
      · simp only [if_pos hu]
      · simp only [if_neg hu]
        by_cases hp : "//".toList.isPrefixOf u = true
        · simp only [if_pos hp]
          rw [if_neg (by
            rw [show ("https:".toList ++ u).isEmpty = false from rfl]
            exact Bool.false_ne_true)]
          rw [if_neg (by
            rw [not_prefix_https]
            exact Bool.false_ne_true)]
        · simp only [if_neg hp, if_neg hu]
  · -- amountRaw
    rcases amountf with _ | a
    · rfl
    · by_cases ha : a.isEmpty = true
      · simp only [if_pos ha]
      · simp only [if_neg ha]
  · -- amountMin
    rcases amountf with _ | a
    · rfl
    · by_cases ha : a.isEmpty = true
      · simp only [if_pos ha]
      · simp only [if_neg ha]
  · -- amountMax
    rcases amountf with _ | a
    · rfl
    · by_cases ha : a.isEmpty = true
      · simp only [if_pos ha]
      · simp only [if_neg ha]
  · -- deadline
    rcases deadlinef with _ | ds
    · rfl
    · by_cases hds : ds.isEmpty = true
      · simp only [if_pos hds]
      · simp only [if_neg hds]
        cases hnd : normalizeDate (some ds) with
        | none => rfl
        | some out =>
          obtain ⟨hne, hrt⟩ := normalizeDate_roundtrip hnd
          have hcond : ¬ List.isEmpty out = true := by
            rw [hne]
            exact Bool.false_ne_true
          dsimp only
          rw [if_neg hcond]
          exact hrt

theorem C9_amended_normalize_scholarship_idempotent_witness :
    (∀ s, c9Rec.source = some s →
      normalizeSourceName (normalizeSourceName s) = normalizeSourceName s) ∧
    normalizeScholarship (normalizeScholarship c9Rec) =
      normalizeScholarship c9Rec := by
  have h : ∀ s, c9Rec.source = some s →
      normalizeSourceName (normalizeSourceName s) = normalizeSourceName s := by
    intro s hs
    have hs2 : some ("fastweb".toList) = some s := hs
    cases hs2
    decide
  exact ⟨h, C9_amended_normalize_scholarship_idempotent c9Rec h⟩

end ScholarRank